import Mathlib

/-!
# sip: reference parsing and retrieval orchestration

A shallow embedding of `src/sip.cpp` (the POSIX build).  A `std::string` is
the list of its `char` elements; `std::string::npos` is `none`.  The first
part embeds the string helpers and the pure functions
(`looks_like_commit_sha`, `parse_github_url`, `quote_arg`, `rtrim`).  The
second part embeds the functions that act on the outside world (file system,
subprocesses, terminal): a program maps the effects so far to its result and
the effects it adds, and every answer of the outside world is given by an
arbitrary oracle that may depend on all the effects so far.
-/

namespace Sip

/-! ## Strings -/

/-- A `std::string`, as the sequence of its characters. -/
abbrev Str := List Char

/-- Index of the first character satisfying `p`, if any. -/
def find_if (p : Char → Bool) : Str → Option Nat
  | [] => none
  | c :: cs => if p c then some 0 else (find_if p cs).map (· + 1)

/-- The call `s.find(c, pos)`: index of the first `c` at or after `pos`. -/
def find (s : Str) (c : Char) (pos : Nat) : Option Nat :=
  (find_if (fun x => x == c) (s.drop pos)).map (· + pos)

/-- The call `s.find(pat)`: index of the first occurrence of the string `pat`. -/
def find_str : Str → Str → Option Nat
  | [], pat => if pat = [] then some 0 else none
  | c :: cs, pat =>
      if pat.isPrefixOf (c :: cs) then some 0 else (find_str cs pat).map (· + 1)

/-- The call `s.find_first_not_of(chars)`. -/
def find_first_not_of (s chars : Str) : Option Nat :=
  find_if (fun x => !chars.contains x) s

/-- The call `s.find_first_of(chars, pos)`. -/
def find_first_of (s chars : Str) (pos : Nat) : Option Nat :=
  (find_if (fun x => chars.contains x) (s.drop pos)).map (· + pos)

/-- The call `s.find_last_not_of(chars)`. -/
def find_last_not_of (s chars : Str) : Option Nat :=
  (find_if (fun x => !chars.contains x) s.reverse).map (fun i => s.length - 1 - i)

/-- The call `s.substr(pos, n)`. -/
def substr (s : Str) (pos n : Nat) : Str := (s.drop pos).take n

/-- The call `s.substr(pos)`. -/
def substr_from (s : Str) (pos : Nat) : Str := s.drop pos

/-- The test `s.rfind(p, 0) == 0`: the string `s` starts with `p`. -/
def starts_with (s p : Str) : Bool := p.isPrefixOf s

/-! ## Pure functions of the program -/

/-- Lines 32-35. -/
def rtrim (str : Str) : Str :=
  match find_last_not_of str [' ', '\n', '\r', '\t'] with
  | none => []
  | some e => substr str 0 (e + 1)

/-- Lines 59-62. -/
def looks_like_commit_sha (ref : Str) : Bool :=
  decide (ref.length ≥ 6) && decide (ref.length ≤ 64) &&
    (find_first_not_of ref "0123456789abcdefABCDEF".toList).isNone

/-- What `parse_github_url` writes to its four reference parameters when it
returns `true`. -/
structure Parsed where
  owner : Str
  repo : Str
  path : Str
  branch : Str
  deriving DecidableEq, Repr

/-- The constant `github_prefix` of `parse_github_url` (line 92). -/
def github_prefix_str : Str := "https://github.com/".toList

/-- Lines 93-95: a leading `https://github.com/` is dropped. -/
def strip_github (input : Str) : Str :=
  if starts_with input github_prefix_str then
    substr_from input github_prefix_str.length
  else input

/-- Lines 97-103: a trailing `.git` of an input longer than four characters is
dropped, and then one `/` if the rest ends in one. -/
def strip_dot_git (input : Str) : Str :=
  if input.length > 4 ∧ substr_from input (input.length - 4) = ".git".toList then
    let input := substr input 0 (input.length - 4)
    if input ≠ [] ∧ input.getLast? = some '/' then input.dropLast else input
  else input

/-- Lines 123-147: the part after `owner/repo/` is split into branch and
path.  The result is the pair `(path, branch)`. -/
def split_remainder (remainder : Str) : Str × Str :=
  if starts_with remainder "tree/".toList then
    let remainder := substr_from remainder 5
    match find remainder '/' 0 with
    | some next_slash =>
        (substr_from remainder (next_slash + 1), substr remainder 0 next_slash)
    | none => ([], remainder)
  else if starts_with remainder "blob/".toList then
    let remainder := substr_from remainder 5
    match find remainder '/' 0 with
    | some next_slash =>
        (substr_from remainder (next_slash + 1), substr remainder 0 next_slash)
    | none => ([], remainder)
  else
    (remainder, [])

/-- Lines 105-149: the owner, the repository and the remainder are cut at the
first two `/`. -/
def split_input (input : Str) : Option Parsed :=
  match find input '/' 0 with
  | none => none
  | some first_slash =>
      let owner := substr input 0 first_slash
      match find input '/' (first_slash + 1) with
      | none => some ⟨owner, substr_from input (first_slash + 1), [], []⟩
      | some second_slash =>
          let repo := substr input (first_slash + 1) (second_slash - first_slash - 1)
          let remainder := substr_from input (second_slash + 1)
          some ⟨owner, repo, (split_remainder remainder).1, (split_remainder remainder).2⟩

/-- Lines 81-150.  `none` is the return value `false` (the four reference
parameters are then untouched); `some t` is `true` with the values written. -/
def parse_github_url (url_or_repo : Str) : Option Parsed :=
  split_input (strip_dot_git (strip_github url_or_repo))


/-- Lines 181-205, the POSIX branch. -/
def quote_arg (str : Str) : Str :=
  str.foldl
    (fun quoted c =>
      if c = Char.ofNat 39 then
        quoted ++ [Char.ofNat 39, Char.ofNat 34, Char.ofNat 39, Char.ofNat 34, Char.ofNat 39]
      else quoted ++ [c])
    [Char.ofNat 39]
  ++ [Char.ofNat 39]

/-- Lines 37-43, the POSIX branch. -/
def dev_null : Str := " >/dev/null 2>&1".toList

/-- The constant `PROGRAM_NAME` (line 21). -/
def PROGRAM_NAME : Str := "sip".toList

/-- Lines 257-269 of `discover_default_branch`: the branch named by the first
line read from `git ls-remote --symref`, or `main`. -/
def branch_of_first_line (first : Str) : Str :=
  if starts_with first "ref:".toList then
    match find_str first "refs/heads/".toList with
    | some pos =>
        let pos := pos + 11
        let branch :=
          match find_first_of first [' ', '\t', '\n'] pos with
          | none => substr_from first pos
          | some e => substr first pos (e - pos)
        let branch := rtrim branch
        if branch = [] then "main".toList else branch
    | none => "main".toList
  else "main".toList

/-! ## Pathnames

`std::filesystem::path` on a POSIX system, where the only separator is `/`
and there is no root name. -/

/-- The value of `path(p).filename()`: what follows the last `/`. -/
def filename (p : Str) : Str := (p.reverse.takeWhile (fun c => c != '/')).reverse

/-- The value of `path(p).parent_path()`: the pathname up to the end of the last but one
component; a pathname made of separators only is its own parent. -/
def parent_path (p : Str) : Str :=
  if p.all (fun c => c == '/') then p
  else
    let q := (p.reverse.dropWhile (fun c => c != '/')).reverse
    let r := (q.reverse.dropWhile (fun c => c == '/')).reverse
    if r = [] ∧ q ≠ [] then ['/'] else r

/-- The value of `path(a) / path(b)`: an absolute `b` replaces `a`; otherwise `b` is
appended, after a separator when `a` has a filename. -/
def path_join (a b : Str) : Str :=
  if b.head? = some '/' ∨ a = [] then b
  else if filename a ≠ [] then a ++ '/' :: b
  else a ++ b

/-- What `fgets(buf, size, stream)` reads from a stream whose remaining content is
`stream`: at most `size - 1` characters, ending after the first newline. -/
def read_line : Nat → Str → Str
  | 0, _ => []
  | _ + 1, [] => []
  | n + 1, c :: cs => if c = '\n' then [c] else c :: read_line n cs

/-- The call `fgets(buf, size, stream)`: a null pointer when nothing could be
read. -/
def fgets (size : Nat) (stream : Str) : Option Str :=
  if stream = [] then none else some (read_line (size - 1) stream)

/-- The `std::string` made from the character array `buf` (`first = buf`,
line 253): the characters before the first NUL. -/
def c_string (buf : Str) : Str := buf.takeWhile (fun c => c != Char.ofNat 0)

/-! ## The outside world -/

/-- The three retrieval operations: `clone_repository`,
`download_directory_selective` and `download_file`. -/
inductive Op where
  | FullClone
  | DirectoryCheckout
  | FileFetch
  deriving DecidableEq, Repr

/-- A call of a retrieval operation with its four arguments. -/
structure Call where
  op : Op
  owner : Str
  repo : Str
  path : Str
  output : Str
  deriving DecidableEq, Repr

/-- What the program does to the outside world. -/
inductive Effect where
  | stdout (s : Str)
  | stderr (s : Str)
  | fs_exists (p : Str)
  | create_directories (p : Str)
  | mkdtemp (template : Str)
  | remove_all (p : Str)
  | copy (src dst : Str)
  | system (cmd : Str)
  | popen (cmd : Str)
  deriving DecidableEq, Repr

/-- The effects so far, in order. -/
abbrev History := List Effect

/-- What a run of `main` consists of, in order: effects, and the entries and
exits of the retrieval operations that `main` calls. -/
inductive Event where
  | effect (e : Effect)
  | call (c : Call)
  | ret (c : Call) (result : Bool)
  deriving DecidableEq, Repr

/-- The effects among the events. -/
def effects (tr : List Event) : History :=
  tr.filterMap (fun e => match e with
    | .effect x => some x
    | _ => none)

/-- The outside world.  Every answer may depend on all that happened before
(the effects so far).  The overloads of `std::filesystem` that report errors by
exception are taken not to throw. -/
structure World where
  /-- Value of `getenv("GITHUB_TOKEN")`. -/
  github_token : Option Str
  /-- Value of `std::filesystem::temp_directory_path()`. -/
  temp_directory_path : Str
  /-- Value of `std::filesystem::current_path()`. -/
  current_path : Str
  /-- Answer of `std::filesystem::exists`. -/
  fs_exists : History → Str → Bool
  /-- Answer of `std::filesystem::create_directories(dir, ec)` and the text
  of `ec.message()`. -/
  create_directories : History → Str → Bool × Str
  /-- Answer of `mkdtemp`: the directory created, or none. -/
  mkdtemp : History → Str → Option Str
  /-- Answer of `std::filesystem::remove_all(dir, ec)`: the text of
  `ec.message()` when `ec` is set. -/
  remove_all : History → Str → Option Str
  /-- Answer of `std::filesystem::copy(src, dst, options, ec)`: the text of
  `ec.message()` when `ec` is set. -/
  copy : History → Str → Str → Option Str
  /-- Return value of `std::system`. -/
  system : History → Str → Int
  /-- Answer of `popen(cmd, "r")`: none when the pipe cannot be opened,
  otherwise what the pipe delivers, that is what the shell running `cmd`
  writes to its standard output after the redirections written in `cmd`. -/
  popen : History → Str → Option Str
  /-- The macros `WIFEXITED`, `WEXITSTATUS`, `WIFSIGNALED`, `WTERMSIG` of
  `sys/wait.h`. -/
  WIFEXITED : Int → Bool
  WEXITSTATUS : Int → Int
  WIFSIGNALED : Int → Bool
  WTERMSIG : Int → Int

/-- The global option variables (lines 26-30) as `getopt_long` and line 668
of `main` leave them. -/
structure Opts where
  verbose : Bool
  quiet : Bool
  timeout : Nat
  output_dir : Str
  branch : Str
  deriving DecidableEq, Repr

/-- A program acting on the outside world: from the effects so far to a
result and the effects it adds. -/
def Act (α : Type) : Type := History → α × List Effect

/-- Runs a program after the given effects. -/
def Act.run {α : Type} (m : Act α) (h : History) : α × List Effect := m h

instance : Monad Act where
  pure a := fun _ => (a, [])
  bind m f := fun h => match m h with
    | (a, e1) => match f a (h ++ e1) with
      | (b, e2) => (b, e1 ++ e2)

/-- An action without answer. -/
def emit (e : Effect) : Act Unit := fun _ => ((), [e])

/-- An action whose answer the outside world gives. -/
def query {α : Type} (e : Effect) (answer : History → α) : Act α := fun h => (answer h, [e])

/-- The program `main`: from the events so far to a result and the events
it adds. -/
def Prog (α : Type) : Type := List Event → α × List Event

/-- Runs `main`, or a part of it, after the given events. -/
def Prog.run {α : Type} (m : Prog α) (h : List Event) : α × List Event := m h

instance : Monad Prog where
  pure a := fun _ => (a, [])
  bind m f := fun h => match m h with
    | (a, e1) => match f a (h ++ e1) with
      | (b, e2) => (b, e1 ++ e2)

/-- A statement of `main` other than a retrieval operation. -/
def lift {α : Type} (m : Act α) : Prog α := fun h =>
  match m (effects h) with
  | (a, es) => (a, es.map Event.effect)

/-- A retrieval operation called by `main`: its entry and its exit are
recorded around its effects. -/
def traced (c : Call) (m : Act Bool) : Prog Bool := fun h =>
  match m (effects h) with
  | (r, es) => (r, Event.call c :: (es.map Event.effect ++ [Event.ret c r]))

/-- The call `std::fprintf(stderr, ...)`. -/
def eprint (s : Str) : Act Unit := emit (.stderr s)

/-- The calls `std::printf(...)` and `std::puts(...)`. -/
def print (s : Str) : Act Unit := emit (.stdout s)

/-- The call `std::system(cmd)`. -/
def run_system (W : World) (cmd : Str) : Act Int := query (.system cmd) (fun h => W.system h cmd)

/-- Decimal text of an integer, as `%d` and `std::to_string` print it. -/
def fmt_int (i : Int) : Str := (toString i).toList

/-- Lines 45-57, the POSIX branch. -/
def exit_status_of (W : World) (rc : Int) : Int :=
  if rc = -1 then -1
  else if W.WIFEXITED rc then W.WEXITSTATUS rc
  else if W.WIFSIGNALED rc then 128 + W.WTERMSIG rc
  else rc

/-- Lines 64-79. -/
def path_available_for_write (W : World) (p : Str) : Act Bool := do
  if (← query (.fs_exists p) (fun h => W.fs_exists h p)) then
    eprint (PROGRAM_NAME ++ ": destination exists: ".toList ++ p ++ "\n".toList)
    return false
  let dir := parent_path p
  if dir ≠ [] then
    if !(← query (.fs_exists dir) (fun h => W.fs_exists h dir)) then
      let r ← query (.create_directories dir) (fun h => W.create_directories h dir)
      if !r.1 then
        eprint (PROGRAM_NAME ++ ": mkdir failed: ".toList ++ r.2 ++ "\n".toList)
        return false
  return true

/-- Lines 207-233, the POSIX branch. -/
def create_temp_dir (W : World) : Act Str := do
  let template_path := path_join W.temp_directory_path "sip_XXXXXX".toList
  let result ← query (.mkdtemp template_path) (fun h => W.mkdtemp h template_path)
  match result with
  | some d => return d
  | none => return []

/-- Lines 235-270. -/
def discover_default_branch (W : World) (o : Opts) (owner repo : Str) : Act Str := do
  let url := "https://github.com/".toList ++ owner ++ "/".toList ++ repo
  let auth : Str :=
    match W.github_token with
    | some token =>
        " -c http.extraHeader=".toList ++ quote_arg ("Authorization: Bearer ".toList ++ token)
    | none => []
  let cmd := "git".toList ++ auth ++ " ls-remote --symref ".toList ++ quote_arg url ++ " HEAD".toList
  let cmd := if !o.verbose then cmd ++ dev_null else cmd
  let pipe ← query (.popen cmd) (fun h => W.popen h cmd)
  match pipe with
  | none => return "main".toList
  | some out =>
      let first : Str :=
        match fgets 512 out with
        | some buf => c_string buf
        | none => []
      return branch_of_first_line first

/-- Lines 272-290, the POSIX branch. -/
def check_dependencies (W : World) : Act Bool := do
  let curl_ok := (← run_system W "curl --version >/dev/null 2>&1".toList) == 0
  let git_ok := (← run_system W "git --version >/dev/null 2>&1".toList) == 0
  if !curl_ok then
    eprint (PROGRAM_NAME ++ ": curl not found\n".toList)
    return false
  if !git_ok then
    eprint (PROGRAM_NAME ++ ": git not found\n".toList)
    return false
  return true

/-- The text between single quotes in the messages: `'%s'`. -/
def in_quotes (s : Str) : Str := [Char.ofNat 39] ++ s ++ [Char.ofNat 39]

/-- The value of `auth_config` (lines 310-312 and 525-527). -/
def auth_config (W : World) : Str :=
  match W.github_token with
  | some token =>
      "-c http.extraHeader=".toList ++ quote_arg ("Authorization: Bearer ".toList ++ token)
        ++ " ".toList
  | none => []

/-- Lines 363-409 of `download_directory_selective`: fetch and check out the
reference `opt_branch`, which is not empty.  The result is `false` on the
paths that `return false`. -/
def fetch_and_checkout_ref (W : World) (o : Opts) (temp_dir : Str) : Act Bool := do
  if o.verbose then
    eprint (PROGRAM_NAME ++ ": fetching reference ".toList ++ in_quotes o.branch ++ "...\n".toList)
  -- try tag first
  let fetch_tag_cmd := "GIT_TERMINAL_PROMPT=0 git -C ".toList ++ quote_arg temp_dir ++ " ".toList
    ++ auth_config W ++ "fetch --depth 1 origin tag ".toList ++ quote_arg o.branch
  let fetch_tag_cmd := if !o.verbose then fetch_tag_cmd ++ dev_null else fetch_tag_cmd
  let result ← run_system W fetch_tag_cmd
  let result ←
    if result ≠ 0 then do
      -- try branch
      let fetch_branch_cmd := "GIT_TERMINAL_PROMPT=0 git -C ".toList ++ quote_arg temp_dir
        ++ " ".toList ++ auth_config W ++ "fetch --depth 1 origin ".toList
        ++ quote_arg o.branch ++ ":".toList ++ quote_arg o.branch
      let fetch_branch_cmd :=
        if !o.verbose then fetch_branch_cmd ++ dev_null else fetch_branch_cmd
      let result ← run_system W fetch_branch_cmd
      if result ≠ 0 ∧ looks_like_commit_sha o.branch = true then
        -- try direct SHA fetch
        let fetch_sha_cmd := "GIT_TERMINAL_PROMPT=0 git -C ".toList ++ quote_arg temp_dir
          ++ " ".toList ++ auth_config W ++ "fetch --depth 1 origin ".toList
          ++ quote_arg o.branch
        let fetch_sha_cmd := if !o.verbose then fetch_sha_cmd ++ dev_null else fetch_sha_cmd
        run_system W fetch_sha_cmd
      else pure result
    else pure result
  if result ≠ 0 then
    let exit_code := exit_status_of W result
    eprint (PROGRAM_NAME ++ ": fetch failed for ".toList ++ in_quotes o.branch
      ++ " (exit ".toList ++ fmt_int exit_code ++ ")\n".toList)
    emit (.remove_all temp_dir)
    return false
  let checkout_cmd := "GIT_TERMINAL_PROMPT=0 git -C ".toList ++ quote_arg temp_dir
    ++ " checkout ".toList ++ quote_arg o.branch
  let checkout_cmd := if !o.verbose then checkout_cmd ++ dev_null else checkout_cmd
  if o.verbose then
    eprint (PROGRAM_NAME ++ ": checking out ".toList ++ in_quotes o.branch ++ "...\n".toList)
  let result ← run_system W checkout_cmd
  if result ≠ 0 then
    let exit_code := exit_status_of W result
    eprint (PROGRAM_NAME ++ ": checkout failed for ".toList ++ in_quotes o.branch
      ++ " (exit ".toList ++ fmt_int exit_code ++ ")\n".toList)
    emit (.remove_all temp_dir)
    return false
  return true

/-- Lines 410-425 of `download_directory_selective`: check out the default
branch.  The result is `false` on the path that `return false`. -/
def checkout_default (W : World) (o : Opts) (temp_dir : Str) : Act Bool := do
  let checkout_cmd := "GIT_TERMINAL_PROMPT=0 git -C ".toList ++ quote_arg temp_dir
    ++ " checkout".toList
  let checkout_cmd := if !o.verbose then checkout_cmd ++ dev_null else checkout_cmd
  if o.verbose then
    eprint (PROGRAM_NAME ++ ": checking out default branch...\n".toList)
  let result ← run_system W checkout_cmd
  if result ≠ 0 then
    let exit_code := exit_status_of W result
    eprint (PROGRAM_NAME ++ ": checkout failed (exit ".toList ++ fmt_int exit_code
      ++ ")\n".toList)
    emit (.remove_all temp_dir)
    return false
  return true

/-- Lines 293-454. -/
def download_directory_selective (W : World) (o : Opts) (owner repo path output : Str) :
    Act Bool := do
  if !o.quiet then
    print ("Downloading directory ".toList ++ in_quotes path ++ "...\n".toList)
  if !(← path_available_for_write W output) then return false
  let temp_dir ← create_temp_dir W
  if temp_dir = [] then
    eprint (PROGRAM_NAME ++ ": failed to create temp directory\n".toList)
    return false
  let git_url := "https://github.com/".toList ++ owner ++ "/".toList ++ repo ++ ".git".toList
  let clone_cmd := "GIT_TERMINAL_PROMPT=0 git ".toList ++ auth_config W
    ++ "-c http.lowSpeedLimit=1000 -c http.lowSpeedTime=10 ".toList
    ++ "clone --filter=blob:none --no-checkout --depth 1 ".toList
  let clone_cmd := if !o.quiet then clone_cmd ++ "--progress ".toList else clone_cmd
  let clone_cmd := clone_cmd ++ quote_arg git_url ++ " ".toList ++ quote_arg temp_dir
  let clone_cmd := if !o.verbose then clone_cmd ++ dev_null else clone_cmd
  if o.verbose then
    eprint (PROGRAM_NAME ++ ": cloning repository...\n".toList)
  let result ← run_system W clone_cmd
  if result ≠ 0 then
    let exit_code := exit_status_of W result
    eprint (PROGRAM_NAME ++ ": clone failed (exit ".toList ++ fmt_int exit_code ++ ")\n".toList)
    emit (.remove_all temp_dir)
    return false
  let sparse_init_cmd := "GIT_TERMINAL_PROMPT=0 git -C ".toList ++ quote_arg temp_dir
    ++ " sparse-checkout init --cone".toList
  let sparse_init_cmd := if !o.verbose then sparse_init_cmd ++ dev_null else sparse_init_cmd
  if o.verbose then
    eprint (PROGRAM_NAME ++ ": initializing sparse checkout...\n".toList)
  let result ← run_system W sparse_init_cmd
  if result ≠ 0 then
    let exit_code := exit_status_of W result
    eprint (PROGRAM_NAME ++ ": sparse-checkout init failed (exit ".toList ++ fmt_int exit_code
      ++ ")\n".toList)
    emit (.remove_all temp_dir)
    return false
  let sparse_set_cmd := "GIT_TERMINAL_PROMPT=0 git -C ".toList ++ quote_arg temp_dir
    ++ " sparse-checkout set -- ".toList ++ quote_arg path
  let sparse_set_cmd := if !o.verbose then sparse_set_cmd ++ dev_null else sparse_set_cmd
  if o.verbose then
    eprint (PROGRAM_NAME ++ ": setting sparse checkout pattern...\n".toList)
  let result ← run_system W sparse_set_cmd
  if result ≠ 0 then
    let exit_code := exit_status_of W result
    eprint (PROGRAM_NAME ++ ": sparse-checkout set failed (exit ".toList ++ fmt_int exit_code
      ++ ")\n".toList)
    emit (.remove_all temp_dir)
    return false
  let checked_out ←
    if o.branch ≠ [] then fetch_and_checkout_ref W o temp_dir
    else checkout_default W o temp_dir
  if !checked_out then return false
  let src_path := path_join temp_dir path
  let dest_path := path_join W.current_path output
  if o.verbose then
    eprint (PROGRAM_NAME ++ ": copying files...\n".toList)
  let copy_ec ← query (.copy src_path dest_path) (fun h => W.copy h src_path dest_path)
  let ec ← query (.remove_all temp_dir) (fun h => W.remove_all h temp_dir)
  match ec with
  | some msg =>
      if o.verbose then
        eprint (PROGRAM_NAME ++ ": warning: failed to remove temp dir: ".toList ++ msg
          ++ "\n".toList)
  | none => pure ()
  match copy_ec with
  | some msg =>
      eprint (PROGRAM_NAME ++ ": copy failed: ".toList ++ msg ++ "\n".toList)
      return false
  | none =>
      if !o.quiet then
        print "done.\n".toList
      return true

/-- Lines 456-512. -/
def download_file (W : World) (o : Opts) (owner repo path output : Str) : Act Bool := do
  if !o.quiet then
    print ("Downloading ".toList ++ in_quotes path ++ "...\n".toList)
  if !(← path_available_for_write W output) then return false
  let ref ←
    if o.branch = [] then do
      if o.verbose then
        eprint (PROGRAM_NAME ++ ": discovering default branch...\n".toList)
      let ref ← discover_default_branch W o owner repo
      if o.verbose then
        eprint (PROGRAM_NAME ++ ": using default branch: ".toList ++ ref ++ "\n".toList)
      pure ref
    else pure o.branch
  let url := "https://raw.githubusercontent.com/".toList ++ owner ++ "/".toList ++ repo
    ++ "/".toList ++ ref ++ "/".toList ++ path
  let cmd := "curl ".toList
  let cmd := if !o.quiet then cmd ++ "--progress-bar ".toList else cmd ++ "-s ".toList
  let cmd :=
    match W.github_token with
    | some token =>
        cmd ++ "-H ".toList ++ quote_arg ("Authorization: Bearer ".toList ++ token) ++ " ".toList
    | none => cmd
  let cmd := cmd ++ "-f -L --retry 3 --retry-all-errors --retry-delay 1 --max-time ".toList
    ++ fmt_int o.timeout ++ " -o ".toList ++ quote_arg output ++ " ".toList ++ quote_arg url
  let cmd := if !o.verbose then cmd ++ dev_null else cmd
  if o.verbose then
    eprint (PROGRAM_NAME ++ ": ".toList ++ cmd ++ "\n".toList)
  let result ← run_system W cmd
  if result = 0 then
    if !o.quiet then
      print "done.\n".toList
    return true
  let exit_code := exit_status_of W result
  if exit_code = 22 then
    eprint (PROGRAM_NAME ++ ": file not found (check path/branch)\n".toList)
  else
    eprint (PROGRAM_NAME ++ ": download failed (exit ".toList ++ fmt_int exit_code
      ++ ")\n".toList)
  return false

/-- Lines 514-594.  The third parameter of the source is unnamed and unused. -/
def clone_repository (W : World) (o : Opts) (owner repo _path output : Str) : Act Bool := do
  if !o.quiet then
    print ("Cloning into ".toList ++ in_quotes output ++ "...\n".toList)
  if !(← path_available_for_write W output) then return false
  let url := "https://github.com/".toList ++ owner ++ "/".toList ++ repo ++ ".git".toList
  let is_sha : Bool := o.branch ≠ [] ∧ looks_like_commit_sha o.branch = true
  let cmd := "GIT_TERMINAL_PROMPT=0 git ".toList ++ auth_config W
    ++ "-c http.lowSpeedLimit=1000 -c http.lowSpeedTime=10 clone --depth 1 ".toList
  let cmd := if !o.quiet then cmd ++ "--progress ".toList else cmd
  -- no --branch with commit SHAs
  let cmd :=
    if o.branch ≠ [] ∧ is_sha = false then
      cmd ++ "--branch ".toList ++ quote_arg o.branch ++ " ".toList
    else cmd
  let cmd := cmd ++ quote_arg url ++ " ".toList ++ quote_arg output
  let cmd := if !o.verbose then cmd ++ dev_null else cmd
  if o.verbose then
    eprint (PROGRAM_NAME ++ ": ".toList ++ cmd ++ "\n".toList)
  let result ← run_system W cmd
  if result ≠ 0 then
    let exit_code := exit_status_of W result
    if exit_code = 128 then
      eprint (PROGRAM_NAME ++ ": repo not found or private\n".toList)
    else
      eprint (PROGRAM_NAME ++ ": clone failed (exit ".toList ++ fmt_int exit_code
        ++ ")\n".toList)
    return false
  if is_sha then
    let sha_cmd := "GIT_TERMINAL_PROMPT=0 git -C ".toList ++ quote_arg output ++ " ".toList
      ++ auth_config W ++ "fetch --depth 1 origin ".toList ++ quote_arg o.branch
    let sha_cmd := if !o.verbose then sha_cmd ++ dev_null else sha_cmd
    if o.verbose then
      eprint (PROGRAM_NAME ++ ": ".toList ++ sha_cmd ++ "\n".toList)
    let result ← run_system W sha_cmd
    if result ≠ 0 then
      let exit_code := exit_status_of W result
      eprint (PROGRAM_NAME ++ ": failed to fetch commit ".toList ++ o.branch
        ++ " (exit ".toList ++ fmt_int exit_code ++ ")\n".toList)
      return false
    let checkout_cmd := "GIT_TERMINAL_PROMPT=0 git -C ".toList ++ quote_arg output
      ++ " checkout ".toList ++ quote_arg o.branch
    let checkout_cmd := if !o.verbose then checkout_cmd ++ dev_null else checkout_cmd
    if o.verbose then
      eprint (PROGRAM_NAME ++ ": ".toList ++ checkout_cmd ++ "\n".toList)
    let result ← run_system W checkout_cmd
    if result ≠ 0 then
      let exit_code := exit_status_of W result
      eprint (PROGRAM_NAME ++ ": failed to checkout commit ".toList ++ o.branch
        ++ " (exit ".toList ++ fmt_int exit_code ++ ")\n".toList)
      return false
  if !o.quiet then
    print "done.\n".toList
  return true

/-- The test `opt_output_dir == "./" || opt_output_dir == "."` of `main`. -/
def is_current_dir (d : Str) : Bool := d == "./".toList || d == ".".toList

/-- The values `EXIT_SUCCESS` and `EXIT_FAILURE`. -/
def EXIT_SUCCESS : Int := 0
def EXIT_FAILURE : Int := 1

/-- Lines 680-728 of `main`: the retrieval of the parsed target, with the
fallbacks.  The result is the exit status. -/
def main_retrieve (W : World) (o : Opts) (owner repo path : Str) : Prog Int := do
  if path = [] then
    -- clone whole repo - use repo name as default destination
    let dest := if is_current_dir o.output_dir then repo else o.output_dir
    let success ← traced ⟨.FullClone, owner, repo, [], dest⟩
      (clone_repository W o owner repo [] dest)
    return if success then EXIT_SUCCESS else EXIT_FAILURE
  else if path.getLast? = some '/' then
    -- directory download
    let dir_path := substr path 0 (path.length - 1)
    let output_path :=
      if is_current_dir o.output_dir then filename dir_path
      else path_join o.output_dir (filename dir_path)
    let success ← traced ⟨.DirectoryCheckout, owner, repo, dir_path, output_path⟩
      (download_directory_selective W o owner repo dir_path output_path)
    if !success && !o.quiet then
      lift <| eprint (PROGRAM_NAME ++ ": trying full repo clone...\n".toList)
      let dest := if is_current_dir o.output_dir then repo else o.output_dir
      let success ← traced ⟨.FullClone, owner, repo, [], dest⟩
        (clone_repository W o owner repo [] dest)
      return if success then EXIT_SUCCESS else EXIT_FAILURE
    return if success then EXIT_SUCCESS else EXIT_FAILURE
  else
    -- single file
    let output_file :=
      if is_current_dir o.output_dir then path
      else path_join o.output_dir (filename path)
    let success ← traced ⟨.FileFetch, owner, repo, path, output_file⟩
      (download_file W o owner repo path output_file)
    -- maybe it is a directory
    if !success then
      if !o.quiet then
        lift <| eprint (PROGRAM_NAME ++ ": trying as directory...\n".toList)
      let output_path :=
        if is_current_dir o.output_dir then filename path
        else path_join o.output_dir (filename path)
      let success ← traced ⟨.DirectoryCheckout, owner, repo, path, output_path⟩
        (download_directory_selective W o owner repo path output_path)
      return if success then EXIT_SUCCESS else EXIT_FAILURE
    return if success then EXIT_SUCCESS else EXIT_FAILURE

/-- Lines 152-173 with a status other than `EXIT_SUCCESS`: the hint printed
before `std::exit(status)`. -/
def usage_failure : Prog Unit :=
  lift <| eprint ("Try ".toList ++ in_quotes (PROGRAM_NAME ++ " --help".toList)
    ++ " for more information.\n".toList)

/-- Lines 596-728, after the loop of `getopt_long`: `o` holds the option
variables as the loop leaves them, `args` the arguments from `argv[optind]`
on.  The result is the exit status of the process. -/
def main (W : World) (o : Opts) (args : List Str) : Prog Int := do
  if !(← lift (check_dependencies W)) then return EXIT_FAILURE
  if o.quiet && o.verbose then
    lift <| eprint (PROGRAM_NAME ++ ": --quiet and --verbose are mutually exclusive\n".toList)
    return EXIT_FAILURE
  match args with
  | [] =>
      lift <| eprint (PROGRAM_NAME ++ ": missing repository\n".toList)
      usage_failure
      return EXIT_FAILURE
  | repo_arg :: rest =>
      match parse_github_url repo_arg with
      | none =>
          lift <| eprint (PROGRAM_NAME ++ ": invalid GitHub URL or repo format\n".toList)
          return EXIT_FAILURE
      | some t =>
          -- a branch from the URL is used when no -b was given, except the
          -- common default branch names
          let o : Opts :=
            if t.branch ≠ [] ∧ o.branch = [] ∧ t.branch ≠ "master".toList
                ∧ t.branch ≠ "main".toList then
              ⟨o.verbose, o.quiet, o.timeout, o.output_dir, t.branch⟩
            else o
          let path_rest : Str × List Str :=
            match t.path, rest with
            | [], p :: rest1 => (p, rest1)
            | path, rest => (path, rest)
          if path_rest.2 ≠ [] then
            lift <| eprint (PROGRAM_NAME ++ ": too many arguments\n".toList)
            usage_failure
            return EXIT_FAILURE
          main_retrieve W o t.owner t.repo path_rest.1

/-! ## Notions used to state the properties -/

/-- A hexadecimal digit: `0-9`, `a-f` or `A-F`. -/
def is_hex_digit (c : Char) : Prop :=
  ('0' ≤ c ∧ c ≤ '9') ∨ ('a' ≤ c ∧ c ≤ 'f') ∨ ('A' ≤ c ∧ c ≤ 'F')

/-- The string without its last character when that is a `/`. -/
def remove_one_trailing_slash (s : Str) : Str :=
  if s.getLast? = some '/' then s.dropLast else s

/-- The retrieval operations entered, in order, with their arguments. -/
def calls (tr : List Event) : List Call :=
  tr.filterMap (fun e => match e with
    | .call c => some c
    | _ => none)

/-- The retrieval operations left, in order, with their results. -/
def attempts (tr : List Event) : List (Call × Bool) :=
  tr.filterMap (fun e => match e with
    | .ret c r => some (c, r)
    | _ => none)

/-- A subprocess is started by `std::system` or by `popen`; every `git` and
every `curl` command of the program is one. -/
def Effect.is_subprocess : Effect → Bool
  | .system _ => true
  | .popen _ => true
  | _ => false

/-- The two command lines of `check_dependencies` (lines 277-278): they ask
the local `curl` and `git` for their version and contact no remote. -/
def dependency_checks : List Str :=
  ["curl --version >/dev/null 2>&1".toList, "git --version >/dev/null 2>&1".toList]

/-- A network subprocess: any subprocess other than the two version checks of
`check_dependencies`.  The other command lines of the program are those of
`git ls-remote`, `git clone`, `git fetch`, `git sparse-checkout` and
`git checkout` on the clone, and `curl` on a URL. -/
def Effect.is_network : Effect → Bool
  | .system cmd => !(dependency_checks.contains cmd)
  | .popen _ => true
  | _ => false

/-- How broad a retrieval strategy is: a file, a directory, the repository. -/
def Op.rank : Op → Nat
  | .FileFetch => 0
  | .DirectoryCheckout => 1
  | .FullClone => 2

/-- The events of one retrieval operation called by `main`: its entry, its
effects, its exit. -/
def attempt_events (c : Call) (r : Bool) (es : List Effect) : List Event :=
  Event.call c :: (es.map Event.effect ++ [Event.ret c r])

/-- The exit status `success ? EXIT_SUCCESS : EXIT_FAILURE`. -/
def status_of (success : Bool) : Int := if success then EXIT_SUCCESS else EXIT_FAILURE

/-- The destination that `main` computes for `clone_repository`. -/
def clone_dest (o : Opts) (repo : Str) : Str :=
  if is_current_dir o.output_dir then repo else o.output_dir

/-- The destination that `main` computes for `download_directory_selective`. -/
def dir_dest (o : Opts) (path : Str) : Str :=
  if is_current_dir o.output_dir then filename path else path_join o.output_dir (filename path)

/-- The destination that `main` computes for `download_file`. -/
def file_dest (o : Opts) (path : Str) : Str :=
  if is_current_dir o.output_dir then path else path_join o.output_dir (filename path)

/-- The option variables with their initial values (lines 26-30). -/
def default_opts : Opts := ⟨false, false, 10, "./".toList, []⟩

/-- A world for examples: the pathnames in `existing` exist, directories can
be created, `mkdtemp` and the file operations succeed, there is no token, the
subprocesses answer as `sys` and `out` say, and the wait status is decoded as
on Linux. -/
def example_world (existing : List Str) (sys : Str → Int) (out : Str → Option Str) : World where
  github_token := none
  temp_directory_path := "/tmp".toList
  current_path := "/home/user".toList
  fs_exists := fun _ p => existing.contains p
  create_directories := fun _ _ => (true, [])
  mkdtemp := fun _ t => some t
  remove_all := fun _ _ => none
  copy := fun _ _ _ => none
  system := fun _ cmd => sys cmd
  popen := fun _ cmd => out cmd
  WIFEXITED := fun rc => rc % 128 == 0
  WEXITSTATUS := fun rc => (rc / 256) % 256
  WIFSIGNALED := fun rc => decide (1 ≤ rc % 128 ∧ rc % 128 ≤ 126)
  WTERMSIG := fun rc => rc % 128

/-- The text of the line `first` after the `refs/heads/` found at index `pos`,
up to the next space, tab or newline. -/
def name_after (first : Str) (pos : Nat) : Str :=
  (first.drop (pos + 11)).takeWhile (fun c => !([' ', '\t', '\n'].contains c))

/-- The command line that `discover_default_branch` builds (lines 236-244). -/
def ls_remote_cmd (W : World) (o : Opts) (owner repo : Str) : Str :=
  if !o.verbose then
    "git".toList
      ++ (match W.github_token with
          | some token =>
              " -c http.extraHeader=".toList
                ++ quote_arg ("Authorization: Bearer ".toList ++ token)
          | none => [])
      ++ " ls-remote --symref ".toList
      ++ quote_arg ("https://github.com/".toList ++ owner ++ "/".toList ++ repo)
      ++ " HEAD".toList ++ dev_null
  else
    "git".toList
      ++ (match W.github_token with
          | some token =>
              " -c http.extraHeader=".toList
                ++ quote_arg ("Authorization: Bearer ".toList ++ token)
          | none => [])
      ++ " ls-remote --symref ".toList
      ++ quote_arg ("https://github.com/".toList ++ owner ++ "/".toList ++ repo)
      ++ " HEAD".toList

/-- The first line that a run of `discover_default_branch` gets from the pipe
of the command `cmd`, as the string `first` holds it (up to its first NUL):
none when the pipe cannot be opened or delivers nothing. -/
def first_line_read (W : World) (h : History) (cmd : Str) : Option Str :=
  ((W.popen h cmd).bind (fgets 512)).map c_string

/-- A pipe for examples, for a remote whose `HEAD` points to
`refs/heads/master`: a command line that ends with the redirection
`>/dev/null 2>&1` writes nothing to the pipe; any other command line writes
the answer of `git ls-remote --symref`. -/
def master_remote_pipe (cmd : Str) : Option Str :=
  if dev_null.isSuffixOf cmd then some []
  else some ("ref: refs/heads/master\tHEAD\n".toList
    ++ "0123456789abcdef0123456789abcdef01234567\tHEAD\n".toList)

/-- The option variables after `-v`. -/
def verbose_opts : Opts := ⟨true, false, 10, "./".toList, []⟩

/-- The option variables after `-q`. -/
def quiet_opts : Opts := ⟨false, true, 10, "./".toList, []⟩

/-- A `std::system` for examples: the clone with `--no-checkout` of
`download_directory_selective` fails with exit status 1, every other command
succeeds. -/
def sparse_clone_fails (cmd : Str) : Int :=
  if (find_str cmd "--no-checkout".toList).isSome then 256 else 0

/-- The characters that a POSIX shell does not take literally in an unquoted
word (Shell Command Language, section 2.2): the separators, the operators,
the quoting characters and the characters of expansions and patterns. -/
def shell_special : Str :=
  [' ', '\t', '\n', '|', '&', ';', '<', '>', '(', ')', '$', Char.ofNat 96, Char.ofNat 92,
    Char.ofNat 34, Char.ofNat 39, '*', '?', '[', '#', '~', '=', '%']

/-- Where the shell is in a word: outside quotes, between single quotes or
between double quotes. -/
inductive QuoteState where
  | bare
  | single
  | double
  deriving DecidableEq, Repr

/-- Quote removal of a POSIX shell on one word all of whose characters stand
for themselves: between single quotes every character is literal up to the
closing quote; between double quotes every character but `$`, the backquote,
the backslash and the closing quote is literal; outside quotes every
character but those of `shell_special` is literal.  The result is none when
the text is not such a word: a quote is left open, or a character would end
the word or be interpreted. -/
def unquote_from : QuoteState → Str → Option Str
  | .bare, [] => some []
  | .bare, c :: cs =>
      if c = Char.ofNat 39 then unquote_from .single cs
      else if c = Char.ofNat 34 then unquote_from .double cs
      else if shell_special.contains c then none
      else (unquote_from .bare cs).map (fun w => c :: w)
  | .single, [] => none
  | .single, c :: cs =>
      if c = Char.ofNat 39 then unquote_from .bare cs
      else (unquote_from .single cs).map (fun w => c :: w)
  | .double, [] => none
  | .double, c :: cs =>
      if c = Char.ofNat 34 then unquote_from .bare cs
      else if c = '$' ∨ c = Char.ofNat 96 ∨ c = Char.ofNat 92 then none
      else (unquote_from .double cs).map (fun w => c :: w)

/-- Quote removal on a word, from its first character. -/
def unquote (word : Str) : Option Str := unquote_from .bare word

/-- What stands for the character `c` in a quoted argument: the five
characters that close the single quotes, give a single quote between double
quotes and open single quotes again, or `c` itself. -/
def quoted_char (c : Char) : Str :=
  if c = Char.ofNat 39 then
    [Char.ofNat 39, Char.ofNat 34, Char.ofNat 39, Char.ofNat 34, Char.ofNat 39]
  else [c]

/-! ## String lemmas -/

theorem find_if_eq_none {p : Char → Bool} {s : Str} :
    find_if p s = none ↔ ∀ c ∈ s, p c = false := by
  induction s with
  | nil => simp [find_if]
  | cons x xs ih =>
      by_cases hx : p x = true
      · simp [find_if, hx]
      · simp [find_if, hx, ih]

theorem find_if_append_hit {p : Char → Bool} (a : Str) (x : Char) (b : Str)
    (ha : ∀ c ∈ a, p c = false) (hx : p x = true) :
    find_if p (a ++ x :: b) = some a.length := by
  induction a with
  | nil => simp [find_if, hx]
  | cons y ys ih =>
      have hy : p y = false := ha y (List.mem_cons_self _ _)
      have := ih (fun c hc => ha c (List.mem_cons_of_mem _ hc))
      simp [find_if, hy, this]

theorem find_no_slash {s : Str} (h : '/' ∉ s) : find s '/' 0 = none := by
  have : find_if (fun x => x == '/') s = none :=
    find_if_eq_none.2 (fun c hc => by
      have : c ≠ '/' := fun e => h (e ▸ hc)
      simpa using this)
  simp [find, this]

theorem find_eq_none_iff {s : Str} : find s '/' 0 = none ↔ '/' ∉ s := by
  constructor
  · intro h hs
    have h1 : find_if (fun x => x == '/') s = none := by simpa [find] using h
    have := find_if_eq_none.1 h1 '/' hs
    simp at this
  · exact find_no_slash

theorem find_first_slash (a b : Str) (h : '/' ∉ a) :
    find (a ++ '/' :: b) '/' 0 = some a.length := by
  have := find_if_append_hit (p := fun x => x == '/') a '/' b
    (fun c hc => by
      have : c ≠ '/' := fun e => h (e ▸ hc)
      simpa using this) (by simp)
  simp [find, this]

theorem find_after_first (a b : Str) :
    find (a ++ '/' :: b) '/' (a.length + 1) = (find b '/' 0).map (· + (a.length + 1)) := by
  have : List.drop (a.length + 1) (a ++ '/' :: b) = b := by
    rw [List.drop_append_eq_append_drop]
    simp
  simp [find, this]

theorem drop_succ_length_append (a b : Str) (c : Char) :
    List.drop (a.length + 1) (a ++ c :: b) = b := by
  rw [List.drop_append_eq_append_drop]
  simp

theorem split_input_two (o r : Str) (ho : '/' ∉ o) (hr : '/' ∉ r) :
    split_input (o ++ '/' :: r) = some ⟨o, r, [], []⟩ := by
  unfold split_input
  rw [find_first_slash o r ho]
  simp only [find_after_first, find_no_slash hr, Option.map_none']
  simp [substr, substr_from, drop_succ_length_append]

theorem split_input_three (o r rem : Str) (ho : '/' ∉ o) (hr : '/' ∉ r) :
    split_input (o ++ '/' :: (r ++ '/' :: rem))
      = some ⟨o, r, (split_remainder rem).1, (split_remainder rem).2⟩ := by
  unfold split_input
  rw [find_first_slash o _ ho]
  simp only [find_after_first, find_first_slash r rem hr, Option.map_some']
  have h1 : List.drop (r.length + (o.length + 1) + 1) (o ++ '/' :: (r ++ '/' :: rem)) = rem := by
    have : r.length + (o.length + 1) + 1 = (o.length + 1) + (r.length + 1) := by omega
    rw [this, ← List.drop_drop, drop_succ_length_append, drop_succ_length_append]
  have h2 : r.length + (o.length + 1) - o.length - 1 = r.length := by omega
  simp [substr, substr_from, drop_succ_length_append, h1, h2]

theorem split_remainder_plain (p : Str) (h1 : ¬ "tree/".toList <+: p)
    (h2 : ¬ "blob/".toList <+: p) : split_remainder p = (p, []) := by
  have h1' : ¬ ['t', 'r', 'e', 'e', '/'] <+: p := h1
  have h2' : ¬ ['b', 'l', 'o', 'b', '/'] <+: p := h2
  unfold split_remainder starts_with
  simp [h1', h2']

theorem split_remainder_marker (marker ref p : Str)
    (hm : marker = "tree".toList ∨ marker = "blob".toList) (hf : '/' ∉ ref) :
    split_remainder (marker ++ '/' :: (ref ++ '/' :: p)) = (p, ref) := by
  have hfind := find_first_slash ref p hf
  rcases hm with rfl | rfl
  · simp [split_remainder, starts_with, substr_from, substr, hfind, drop_succ_length_append]
  · simp [split_remainder, starts_with, substr_from, substr, hfind, drop_succ_length_append]

theorem split_remainder_marker_only (marker ref : Str)
    (hm : marker = "tree".toList ∨ marker = "blob".toList) (hf : '/' ∉ ref) :
    split_remainder (marker ++ '/' :: ref) = ([], ref) := by
  have hfind := find_no_slash hf
  rcases hm with rfl | rfl
  · simp [split_remainder, starts_with, substr_from, hfind]
  · simp [split_remainder, starts_with, substr_from, hfind]

theorem strip_github_append (t : Str) : strip_github (github_prefix_str ++ t) = t := by
  simp [strip_github, starts_with, substr_from]

theorem strip_github_of_not {s : Str} (h : ¬ github_prefix_str <+: s) : strip_github s = s := by
  simp [strip_github, starts_with, h]

theorem strip_github_cases (s : Str) :
    (∃ t, s = github_prefix_str ++ t ∧ strip_github s = t)
      ∨ (¬ github_prefix_str <+: s ∧ strip_github s = s) := by
  by_cases h : github_prefix_str <+: s
  · obtain ⟨t, rfl⟩ := h
    exact Or.inl ⟨t, rfl, strip_github_append t⟩
  · exact Or.inr ⟨h, strip_github_of_not h⟩

theorem strip_dot_git_of_not {s : Str} (h : ¬ ".git".toList <:+ s) : strip_dot_git s = s := by
  unfold strip_dot_git
  rw [if_neg]
  rintro ⟨-, h2⟩
  apply h
  rw [← h2]
  exact List.drop_suffix _ _

theorem strip_dot_git_suffix (q : Str) (hq : q ≠ []) :
    strip_dot_git (q ++ ".git".toList) = remove_one_trailing_slash q := by
  have hlen : 0 < q.length := List.length_pos.2 hq
  have h4 : (q ++ ".git".toList).length - 4 = q.length := by simp
  unfold strip_dot_git
  rw [if_pos]
  · simp only [h4, substr, List.drop_zero, List.take_left', remove_one_trailing_slash]
    by_cases hl : q.getLast? = some '/'
    · simp [hl, hq]
    · simp [hl]
  · refine ⟨by simp; omega, ?_⟩
    simp only [substr_from, h4, List.drop_left']

theorem rev_git_prefix_before_slash (p a : Str)
    (h : ['t', 'i', 'g', '.'] <+: p ++ '/' :: a) : ['t', 'i', 'g', '.'] <+: p := by
  rcases p with _ | ⟨x1, _ | ⟨x2, _ | ⟨x3, _ | ⟨x4, rest⟩⟩⟩⟩
  · simp [List.cons_prefix_cons] at h
  · simp [List.cons_prefix_cons] at h
  · simp [List.cons_prefix_cons] at h
  · simp [List.cons_prefix_cons] at h
  · simp only [List.cons_append, List.cons_prefix_cons] at h
    obtain ⟨rfl, rfl, rfl, rfl, -⟩ := h
    simp [List.cons_prefix_cons]

theorem dot_git_suffix_after_slash (a p : Str) (h : ".git".toList <:+ a ++ '/' :: p) :
    ".git".toList <:+ p := by
  have h1 : (".git".toList).reverse <+: (a ++ '/' :: p).reverse := List.reverse_prefix.2 h
  have h2 : ['t', 'i', 'g', '.'] <+: p.reverse ++ '/' :: a.reverse := by
    simpa using h1
  have h3 := rev_git_prefix_before_slash _ _ h2
  have h4 : (".git".toList).reverse <+: p.reverse := by simpa using h3
  exact List.reverse_prefix.1 h4

theorem find_github_prefixed (t : Str) : find (github_prefix_str ++ t) '/' 0 = some 6 := by
  simp [find, find_if, github_prefix_str]

theorem not_github_prefixed (o r x : Str) (ho : '/' ∉ o) (hr : '/' ∉ r) (hne : r ≠ []) :
    ¬ github_prefix_str <+: o ++ '/' :: (r ++ x) := by
  rintro ⟨t, ht⟩
  have h1 := find_first_slash o (r ++ x) ho
  rw [← ht, find_github_prefixed] at h1
  have h6 : o.length = 6 := by simpa using h1.symm
  have h2 : List.drop (o.length + 1) (o ++ '/' :: (r ++ x)) = r ++ x :=
    drop_succ_length_append _ _ _
  rw [← ht, h6] at h2
  rcases r with _ | ⟨y, r1⟩
  · exact hne rfl
  · have hy : y = '/' := by
      have h3 : (List.drop (6 + 1) (github_prefix_str ++ t)).head? = some y := by
        rw [h2]; rfl
      simpa [github_prefix_str] using h3.symm
    exact hr (hy ▸ List.mem_cons_self _ _)

theorem github_prefix_not_completed_by_dot_git :
    ∀ k, k < 19 → ¬ github_prefix_str <+: github_prefix_str.take k ++ ".git".toList := by
  decide

theorem github_prefixed_of_append_dot_git (s : Str)
    (h : github_prefix_str <+: s ++ ".git".toList) : github_prefix_str <+: s := by
  have hs : s <+: s ++ ".git".toList := List.prefix_append _ _
  by_cases hl : github_prefix_str.length ≤ s.length
  · exact List.prefix_of_prefix_length_le h hs hl
  · have hlt : s.length < 19 := by
      have : github_prefix_str.length = 19 := by decide
      omega
    have h1 : s <+: github_prefix_str := List.prefix_of_prefix_length_le hs h (by omega)
    have h2 : s = github_prefix_str.take s.length := List.prefix_iff_eq_take.1 h1
    rw [h2] at h
    exact absurd h (github_prefix_not_completed_by_dot_git s.length hlt)

theorem remove_one_trailing_slash_snoc (x : Str) :
    remove_one_trailing_slash (x ++ ['/']) = x := by
  simp [remove_one_trailing_slash]

theorem remove_one_trailing_slash_append (a q : Str) (hq : q ≠ []) :
    remove_one_trailing_slash (a ++ q) = a ++ remove_one_trailing_slash q := by
  unfold remove_one_trailing_slash
  rw [List.getLast?_append_of_ne_nil _ hq]
  by_cases h : q.getLast? = some '/'
  · simp [h, List.dropLast_append_of_ne_nil _ hq]
  · simp [h]

theorem remove_one_trailing_slash_is_initial (q : Str) : remove_one_trailing_slash q <+: q := by
  unfold remove_one_trailing_slash
  split
  · exact List.dropLast_prefix q
  · exact List.prefix_refl q

/-- The body `owner/repo/rest` is not touched by the removal of the prefix. -/
theorem strip_github_body (pre o r x : Str) (ho : '/' ∉ o) (hr : '/' ∉ r) (hne : r ≠ [])
    (hpre : pre = [] ∨ pre = github_prefix_str) :
    strip_github (pre ++ (o ++ '/' :: (r ++ x))) = o ++ '/' :: (r ++ x) := by
  rcases hpre with rfl | rfl
  · simpa using strip_github_of_not (not_github_prefixed o r x ho hr hne)
  · exact strip_github_append _

/-- What `strip_dot_git` leaves of a string `b/p`: the `/` stays unless `p`
is exactly `.git`. -/
theorem strip_dot_git_after_slash (p : Str) :
    (p = ".git".toList ∧ ∀ b : Str, strip_dot_git (b ++ '/' :: p) = b) ∨
    (∃ p1, p1 <+: p ∧ ∀ b : Str, strip_dot_git (b ++ '/' :: p) = b ++ '/' :: p1) := by
  by_cases hs : ".git".toList <:+ p
  · obtain ⟨q, rfl⟩ := hs
    by_cases hq : q = []
    · subst hq
      left
      refine ⟨rfl, fun b => ?_⟩
      have h1 := strip_dot_git_suffix (b ++ ['/']) (by simp)
      have h3 : b ++ '/' :: ([] ++ ".git".toList) = (b ++ ['/']) ++ ".git".toList := by simp
      rw [h3, h1, remove_one_trailing_slash_snoc]
    · right
      refine ⟨remove_one_trailing_slash q,
        (remove_one_trailing_slash_is_initial q).trans (List.prefix_append _ _), fun b => ?_⟩
      have h1 := strip_dot_git_suffix (b ++ '/' :: q) (by simp)
      have h2 : remove_one_trailing_slash (b ++ '/' :: q)
          = b ++ '/' :: remove_one_trailing_slash q := by
        have := remove_one_trailing_slash_append (b ++ ['/']) q hq
        simpa using this
      have h3 : b ++ '/' :: (q ++ ".git".toList) = (b ++ '/' :: q) ++ ".git".toList := by simp
      rw [h3, h1, h2]
  · right
    refine ⟨p, List.prefix_refl p, fun b => ?_⟩
    exact strip_dot_git_of_not (fun h => hs (dot_git_suffix_after_slash b p h))

/-- C1.  For non-empty `owner`, `repo`, `ref` without `/`, a path `p` that
does not begin with `tree/` or `blob/`, and each form with or without the
`https://github.com/` prefix: `parse_github_url` succeeds on
`owner/repo/tree/ref/p` and on `owner/repo/blob/ref/p` with the owner, repo and
path it returns on the bare `owner/repo/p`, and with `ref` as the branch. -/
theorem parse_github_url_tree_eq_bare (owner repo ref p marker pre1 pre2 : Str)
    (_ho : owner ≠ []) (hr : repo ≠ []) (_hf : ref ≠ [])
    (hos : '/' ∉ owner) (hrs : '/' ∉ repo) (hfs : '/' ∉ ref)
    (hp1 : ¬ "tree/".toList <+: p) (hp2 : ¬ "blob/".toList <+: p)
    (hm : marker = "tree".toList ∨ marker = "blob".toList)
    (hpre1 : pre1 = [] ∨ pre1 = github_prefix_str)
    (hpre2 : pre2 = [] ∨ pre2 = github_prefix_str) :
    ∃ path,
      parse_github_url (pre1 ++ owner ++ ['/'] ++ repo ++ ['/'] ++ marker ++ ['/'] ++ ref
          ++ ['/'] ++ p) = some ⟨owner, repo, path, ref⟩ ∧
      parse_github_url (pre2 ++ owner ++ ['/'] ++ repo ++ ['/'] ++ p)
        = some ⟨owner, repo, path, []⟩ := by
  have e1 : pre1 ++ owner ++ ['/'] ++ repo ++ ['/'] ++ marker ++ ['/'] ++ ref ++ ['/'] ++ p
      = pre1 ++ (owner ++ '/' :: (repo ++ '/' :: (marker ++ '/' :: (ref ++ '/' :: p)))) := by
    simp
  have e2 : pre2 ++ owner ++ ['/'] ++ repo ++ ['/'] ++ p
      = pre2 ++ (owner ++ '/' :: (repo ++ '/' :: p)) := by simp
  have s1 := strip_github_body pre1 owner repo ('/' :: (marker ++ '/' :: (ref ++ '/' :: p)))
    hos hrs hr hpre1
  have s2 := strip_github_body pre2 owner repo ('/' :: p) hos hrs hr hpre2
  have b1 : ∀ x : Str, owner ++ '/' :: (repo ++ '/' :: (marker ++ '/' :: (ref ++ '/' :: x)))
      = (owner ++ '/' :: (repo ++ '/' :: (marker ++ '/' :: ref))) ++ '/' :: x := by
    intro x; simp
  have b2 : ∀ x : Str, owner ++ '/' :: (repo ++ '/' :: x) = (owner ++ '/' :: repo) ++ '/' :: x := by
    intro x; simp
  unfold parse_github_url
  rw [e1, e2, s1, s2]
  rcases strip_dot_git_after_slash p with ⟨-, hall⟩ | ⟨p1, hpre, hall⟩
  · refine ⟨[], ?_, ?_⟩
    · rw [b1, hall, split_input_three _ _ _ hos hrs,
        split_remainder_marker_only marker ref hm hfs]
    · rw [b2, hall, split_input_two _ _ hos hrs]
  · refine ⟨p1, ?_, ?_⟩
    · rw [b1, hall, ← b1, split_input_three _ _ _ hos hrs,
        split_remainder_marker marker ref p1 hm hfs]
    · have h1 : ¬ "tree/".toList <+: p1 := fun h => hp1 (h.trans hpre)
      have h2 : ¬ "blob/".toList <+: p1 := fun h => hp2 (h.trans hpre)
      rw [b2, hall, ← b2, split_input_three _ _ _ hos hrs, split_remainder_plain p1 h1 h2]

/-- Witness of C1: `torvalds/linux/tree/master/LICENSES` gives
`(torvalds, linux, LICENSES, master)`. -/
theorem parse_github_url_tree_eq_bare_witness :
    (∃ path,
      parse_github_url ([] ++ "torvalds".toList ++ ['/'] ++ "linux".toList ++ ['/']
          ++ "tree".toList ++ ['/'] ++ "master".toList ++ ['/'] ++ "LICENSES".toList)
        = some ⟨"torvalds".toList, "linux".toList, path, "master".toList⟩ ∧
      parse_github_url ([] ++ "torvalds".toList ++ ['/'] ++ "linux".toList ++ ['/']
          ++ "LICENSES".toList)
        = some ⟨"torvalds".toList, "linux".toList, path, []⟩) ∧
    parse_github_url "torvalds/linux/tree/master/LICENSES".toList
      = some ⟨"torvalds".toList, "linux".toList, "LICENSES".toList, "master".toList⟩ :=
  ⟨parse_github_url_tree_eq_bare "torvalds".toList "linux".toList "master".toList
    "LICENSES".toList "tree".toList [] [] (by decide) (by decide) (by decide) (by decide)
    (by decide) (by decide) (by decide) (by decide) (Or.inl rfl) (Or.inl rfl) (Or.inl rfl),
   by decide⟩

/-- C2.  Let `t` be the input `s` after the optional `https://github.com/`
prefix.  If `t` is not empty and `t` without one trailing `/` does not end in
`.git`, then `parse_github_url` on `s` followed by `.git` gives what it gives
on `s` without one trailing `/`: the same success flag and the same owner,
repo, path and branch. -/
theorem parse_github_url_dot_git (s : Str) (ht : strip_github s ≠ [])
    (hg : ¬ ".git".toList <:+ remove_one_trailing_slash (strip_github s)) :
    parse_github_url (s ++ ".git".toList) = parse_github_url (remove_one_trailing_slash s) := by
  unfold parse_github_url
  rcases strip_github_cases s with ⟨t, rfl, ht1⟩ | ⟨hn, ht1⟩
  · rw [ht1] at ht hg
    rw [List.append_assoc, strip_github_append, strip_dot_git_suffix t ht,
      remove_one_trailing_slash_append _ t ht, strip_github_append, strip_dot_git_of_not hg]
  · rw [ht1] at ht hg
    have h1 : ¬ github_prefix_str <+: s ++ ".git".toList :=
      fun h => hn (github_prefixed_of_append_dot_git s h)
    have h2 : ¬ github_prefix_str <+: remove_one_trailing_slash s :=
      fun h => hn (h.trans (remove_one_trailing_slash_is_initial s))
    rw [strip_github_of_not h1, strip_github_of_not h2, strip_dot_git_suffix s ht,
      strip_dot_git_of_not hg]

/-- Witness of C2: `https://github.com/foo/bar.git` gives `(foo, bar, "", "")`. -/
theorem parse_github_url_dot_git_witness :
    parse_github_url ("https://github.com/foo/bar".toList ++ ".git".toList)
        = parse_github_url (remove_one_trailing_slash "https://github.com/foo/bar".toList) ∧
    parse_github_url "https://github.com/foo/bar.git".toList
        = some ⟨"foo".toList, "bar".toList, [], []⟩ :=
  ⟨parse_github_url_dot_git "https://github.com/foo/bar".toList (by decide) (by decide),
   by decide⟩

/-- C3, the code at `foo/bar.git/`: the `.git` is not removed when a `/`
follows it, so the repository returned is `bar.git`, while `foo/bar` gives
`bar`; a `/` before the suffix (`foo/bar/.git`) is the one removed. -/
theorem parse_github_url_dot_git_slash :
    parse_github_url "foo/bar.git/".toList
        = some ⟨"foo".toList, "bar.git".toList, [], []⟩ ∧
    parse_github_url "https://github.com/foo/bar.git/".toList
        = some ⟨"foo".toList, "bar.git".toList, [], []⟩ ∧
    parse_github_url "foo/bar".toList = some ⟨"foo".toList, "bar".toList, [], []⟩ ∧
    parse_github_url "foo/bar/.git".toList = some ⟨"foo".toList, "bar".toList, [], []⟩ := by
  decide

theorem find_if_some_take {p : Char → Bool} :
    ∀ (s : Str) (i : Nat), find_if p s = some i → ∀ c ∈ s.take i, p c = false := by
  intro s
  induction s with
  | nil => intro i h; simp [find_if] at h
  | cons x xs ih =>
      intro i h c hc
      by_cases hx : p x = true
      · simp [find_if, hx] at h
        subst h
        simp at hc
      · have hx1 : p x = false := by simpa using hx
        simp only [find_if, hx1, Bool.false_eq_true, if_false, Option.map_eq_some'] at h
        obtain ⟨k, hk, rfl⟩ := h
        rw [List.take_succ_cons] at hc
        rcases List.mem_cons.1 hc with rfl | hc1
        · exact hx1
        · exact ih k hk c hc1

theorem no_slash_before_find (s : Str) (pos i : Nat) (h : find s '/' pos = some i) :
    '/' ∉ substr s pos (i - pos) := by
  unfold find at h
  simp only [Option.map_eq_some'] at h
  obtain ⟨k, hk, rfl⟩ := h
  intro hm
  have := find_if_some_take _ k hk '/' (by simpa [substr] using hm)
  simp at this

theorem no_slash_after_find (s : Str) (pos : Nat) (h : find s '/' pos = none) :
    '/' ∉ substr_from s pos := by
  unfold find at h
  simp only [Option.map_eq_none'] at h
  intro hm
  have := find_if_eq_none.1 h '/' hm
  simp at this

theorem split_input_eq_none (input : Str) : split_input input = none ↔ '/' ∉ input := by
  unfold split_input
  cases h : find input '/' 0 with
  | none => simpa using find_eq_none_iff.1 h
  | some i =>
      have : '/' ∈ input := by
        by_contra hn
        rw [find_no_slash hn] at h
        cases h
      simp only [this, not_true_eq_false, iff_false]
      split <;> simp

theorem split_input_no_slash (input : Str) (t : Parsed) (h : split_input input = some t) :
    '/' ∉ t.owner ∧ '/' ∉ t.repo := by
  unfold split_input at h
  cases h1 : find input '/' 0 with
  | none => simp [h1] at h
  | some i =>
      have ho := no_slash_before_find input 0 i h1
      cases h2 : find input '/' (i + 1) with
      | none =>
          simp only [h1, h2, Option.some.injEq] at h
          subst h
          exact ⟨by simpa using ho, no_slash_after_find input (i + 1) h2⟩
      | some j =>
          simp only [h1, h2, Option.some.injEq] at h
          subst h
          have hr := no_slash_before_find input (i + 1) j h2
          have e : j - (i + 1) = j - i - 1 := by omega
          rw [e] at hr
          exact ⟨by simpa using ho, hr⟩

/-- C4, counterexample: `foo/`, `/bar` and `/` are accepted, with an empty
repository or owner. -/
theorem parse_github_url_accepts_empty_segment :
    parse_github_url "foo/".toList = some ⟨"foo".toList, [], [], []⟩ ∧
    parse_github_url "/bar".toList = some ⟨[], "bar".toList, [], []⟩ ∧
    parse_github_url "/".toList = some ⟨[], [], [], []⟩ := by
  decide

theorem strip_github_of_rest (s t : Str)
    (ht : s = github_prefix_str ++ t ∨ (¬ github_prefix_str <+: s ∧ t = s)) :
    strip_github s = t := by
  rcases ht with rfl | ⟨hn, rfl⟩
  · exact strip_github_append t
  · exact strip_github_of_not hn

theorem strip_dot_git_only : strip_dot_git ".git".toList = ".git".toList := by decide

/-- C4, amended.  Let `t` be the input without the optional
`https://github.com/` prefix.  When `t` is `q.git` with `q` not empty,
`parse_github_url` returns `false` exactly when `q` without one trailing `/`
contains no `/` (so `foo.git`, `a/.git` and `/.git` are rejected); when `t` is
`.git` itself or does not end in `.git`, it returns `false` exactly when `t`
contains no `/` (so `foo` is rejected).  Whenever it returns `true`, the owner
and the repository it returns contain no `/` (either may be empty). -/
theorem parse_github_url_success (s t : Str)
    (ht : s = github_prefix_str ++ t ∨ (¬ github_prefix_str <+: s ∧ t = s)) :
    (∀ q, q ≠ [] → t = q ++ ".git".toList →
      (parse_github_url s = none ↔ '/' ∉ remove_one_trailing_slash q)) ∧
    ((t = ".git".toList ∨ ¬ ".git".toList <:+ t) →
      (parse_github_url s = none ↔ '/' ∉ t)) ∧
    (∀ r, parse_github_url s = some r → '/' ∉ r.owner ∧ '/' ∉ r.repo) ∧
    (parse_github_url "foo".toList = none ∧ parse_github_url "foo.git".toList = none ∧
      parse_github_url "a/.git".toList = none ∧ parse_github_url "/.git".toList = none) := by
  have hs : strip_github s = t := strip_github_of_rest s t ht
  refine ⟨fun q hq htq => ?_, fun hc => ?_, fun r h => split_input_no_slash _ r h, by decide⟩
  · unfold parse_github_url
    rw [hs, htq, strip_dot_git_suffix q hq]
    exact split_input_eq_none _
  · unfold parse_github_url
    rw [hs]
    rcases hc with rfl | hc
    · rw [strip_dot_git_only]
      exact split_input_eq_none _
    · rw [strip_dot_git_of_not hc]
      exact split_input_eq_none _

/-- Witness of C4 (amended): `a/.git` is rejected, because `a/` without its
trailing `/` contains no `/`. -/
theorem parse_github_url_success_witness :
    parse_github_url "a/.git".toList = none :=
  ((parse_github_url_success "a/.git".toList "a/.git".toList (Or.inr ⟨by decide, rfl⟩)).1
    "a/".toList (by decide) (by decide)).2 (by decide)

theorem not_contains_eq_false (chars : Str) (c : Char) :
    (!chars.contains c) = false ↔ c ∈ chars := by
  simp

theorem hex_of_mem (c : Char) (h : c ∈ "0123456789abcdefABCDEF".toList) : is_hex_digit c := by
  simp at h
  unfold is_hex_digit
  rcases h with h | h | h | h | h | h | h | h | h | h | h | h | h | h | h | h | h | h | h | h
    | h | h <;> subst h <;> decide

theorem mem_of_hex (c : Char) (h : is_hex_digit c) : c ∈ "0123456789abcdefABCDEF".toList := by
  have e : c = Char.ofNat c.toNat := (Char.ofNat_toNat c).symm
  have h1 : (48 ≤ c.toNat ∧ c.toNat ≤ 57) ∨ (97 ≤ c.toNat ∧ c.toNat ≤ 102)
      ∨ (65 ≤ c.toNat ∧ c.toNat ≤ 70) := h
  generalize c.toNat = n at e h1
  subst e
  rcases h1 with ⟨a, b⟩ | ⟨a, b⟩ | ⟨a, b⟩ <;> interval_cases n <;> decide

/-- C5.  `looks_like_commit_sha(ref)` is true exactly when `ref` has between
6 and 64 characters, all of them hexadecimal digits; a `ref` with a character
that is not a hexadecimal digit is never classified as a commit SHA; and
`deadbeefcafe0123` is classified as one. -/
theorem looks_like_commit_sha_iff :
    (∀ ref : Str, looks_like_commit_sha ref = true ↔
      6 ≤ ref.length ∧ ref.length ≤ 64 ∧ ∀ c ∈ ref, is_hex_digit c) ∧
    (∀ (ref : Str) (c : Char), c ∈ ref → ¬ is_hex_digit c → looks_like_commit_sha ref = false) ∧
    looks_like_commit_sha "deadbeefcafe0123".toList = true := by
  have key : ∀ ref : Str, looks_like_commit_sha ref = true ↔
      6 ≤ ref.length ∧ ref.length ≤ 64 ∧ ∀ c ∈ ref, is_hex_digit c := by
    intro ref
    have h1 : (find_first_not_of ref "0123456789abcdefABCDEF".toList).isNone = true
        ↔ ∀ c ∈ ref, is_hex_digit c := by
      rw [Option.isNone_iff_eq_none]
      unfold find_first_not_of
      rw [find_if_eq_none]
      constructor
      · intro h c hc
        exact hex_of_mem c ((not_contains_eq_false _ c).1 (h c hc))
      · intro h c hc
        exact (not_contains_eq_false _ c).2 (mem_of_hex c (h c hc))
    unfold looks_like_commit_sha
    simp only [Bool.and_eq_true, decide_eq_true_eq, h1, and_assoc, ge_iff_le]
  refine ⟨key, fun ref c hc hn => ?_, by decide⟩
  cases h : looks_like_commit_sha ref with
  | false => rfl
  | true => exact absurd (((key ref).1 h).2.2 c hc) hn

/-- Witness of C5: `main-branch` has the character `m` and is not classified
as a commit SHA. -/
theorem looks_like_commit_sha_iff_witness :
    looks_like_commit_sha "main-branch".toList = false :=
  looks_like_commit_sha_iff.2.1 "main-branch".toList 'm' (by decide)
    (by unfold is_hex_digit; decide)

/-! ## Running programs -/

theorem prog_run_pure {α : Type} (a : α) (h : List Event) : (pure a : Prog α).run h = (a, []) :=
  rfl

theorem prog_run_bind {α β : Type} (m : Prog α) (f : α → Prog β) (h : List Event) :
    (m >>= f).run h
      = (((f (m.run h).1).run (h ++ (m.run h).2)).1,
         (m.run h).2 ++ ((f (m.run h).1).run (h ++ (m.run h).2)).2) :=
  rfl

theorem prog_run_ite {α : Type} (c : Prop) [Decidable c] (m1 m2 : Prog α) (h : List Event) :
    (if c then m1 else m2).run h = if c then m1.run h else m2.run h := by
  split <;> rfl

theorem traced_run (c : Call) (m : Act Bool) (h : List Event) :
    (traced c m).run h
      = ((m.run (effects h)).1,
         Event.call c :: ((m.run (effects h)).2.map Event.effect
            ++ [Event.ret c (m.run (effects h)).1])) :=
  rfl

theorem lift_run {α : Type} (m : Act α) (h : List Event) :
    (lift m).run h = ((m.run (effects h)).1, (m.run (effects h)).2.map Event.effect) :=
  rfl

theorem act_run_pure {α : Type} (a : α) (h : History) : (pure a : Act α).run h = (a, []) :=
  rfl

theorem act_run_bind {α β : Type} (m : Act α) (f : α → Act β) (h : History) :
    (m >>= f).run h
      = (((f (m.run h).1).run (h ++ (m.run h).2)).1,
         (m.run h).2 ++ ((f (m.run h).1).run (h ++ (m.run h).2)).2) :=
  rfl

theorem act_run_ite {α : Type} (c : Prop) [Decidable c] (m1 m2 : Act α) (h : History) :
    (if c then m1 else m2).run h = if c then m1.run h else m2.run h := by
  split <;> rfl

theorem emit_run (e : Effect) (h : History) : (emit e).run h = ((), [e]) := rfl

theorem query_run {α : Type} (e : Effect) (f : History → α) (h : History) :
    (query e f).run h = (f h, [e]) := rfl

theorem calls_cons_call (c : Call) (tr : List Event) :
    calls (Event.call c :: tr) = c :: calls tr := rfl

theorem calls_append (a b : List Event) : calls (a ++ b) = calls a ++ calls b := by
  simp [calls, List.filterMap_append]

theorem calls_effects (es : List Effect) : calls (es.map Event.effect) = [] := by
  simp [calls, List.filterMap_map, Function.comp_def]

theorem calls_ret (c : Call) (r : Bool) : calls [Event.ret c r] = [] := rfl

theorem attempts_cons_call (c : Call) (tr : List Event) :
    attempts (Event.call c :: tr) = attempts tr := rfl

theorem attempts_append (a b : List Event) : attempts (a ++ b) = attempts a ++ attempts b := by
  simp [attempts, List.filterMap_append]

theorem attempts_effects (es : List Effect) : attempts (es.map Event.effect) = [] := by
  simp [attempts, List.filterMap_map, Function.comp_def]

theorem attempts_ret (c : Call) (r : Bool) : attempts [Event.ret c r] = [(c, r)] := rfl

theorem effects_cons_call (c : Call) (tr : List Event) :
    effects (Event.call c :: tr) = effects tr := rfl

theorem effects_append (a b : List Event) : effects (a ++ b) = effects a ++ effects b := by
  simp [effects, List.filterMap_append]

theorem effects_map (es : List Effect) : effects (es.map Event.effect) = es := by
  simp [effects, List.filterMap_map, Function.comp_def]

theorem effects_ret (c : Call) (r : Bool) : effects [Event.ret c r] = [] := rfl

/-! ## The retrieval phase of `main` -/

theorem main_retrieve_clone_run (W : World) (o : Opts) (owner repo : Str) (h : List Event) :
    (main_retrieve W o owner repo []).run h =
      (status_of ((clone_repository W o owner repo [] (clone_dest o repo)).run (effects h)).1,
        attempt_events ⟨.FullClone, owner, repo, [], clone_dest o repo⟩
          ((clone_repository W o owner repo [] (clone_dest o repo)).run (effects h)).1
          ((clone_repository W o owner repo [] (clone_dest o repo)).run (effects h)).2) := by
  unfold main_retrieve
  simp [prog_run_bind, prog_run_pure, traced_run, status_of, attempt_events, clone_dest]

theorem main_retrieve_dir_run (W : World) (o : Opts) (owner repo d : Str) (h : List Event) :
    (main_retrieve W o owner repo (d ++ ['/'])).run h =
      if ((download_directory_selective W o owner repo d (dir_dest o d)).run (effects h)).1 = true
          ∨ o.quiet = true then
        (status_of ((download_directory_selective W o owner repo d (dir_dest o d)).run
            (effects h)).1,
          attempt_events ⟨.DirectoryCheckout, owner, repo, d, dir_dest o d⟩
            ((download_directory_selective W o owner repo d (dir_dest o d)).run (effects h)).1
            ((download_directory_selective W o owner repo d (dir_dest o d)).run (effects h)).2)
      else
        (status_of ((clone_repository W o owner repo [] (clone_dest o repo)).run
            (effects (h ++ attempt_events ⟨.DirectoryCheckout, owner, repo, d, dir_dest o d⟩ false
              ((download_directory_selective W o owner repo d (dir_dest o d)).run (effects h)).2
              ++ [Event.effect (.stderr (PROGRAM_NAME ++ ": trying full repo clone...\n".toList))]))).1,
          attempt_events ⟨.DirectoryCheckout, owner, repo, d, dir_dest o d⟩ false
              ((download_directory_selective W o owner repo d (dir_dest o d)).run (effects h)).2
            ++ [Event.effect (.stderr (PROGRAM_NAME ++ ": trying full repo clone...\n".toList))]
            ++ attempt_events ⟨.FullClone, owner, repo, [], clone_dest o repo⟩
              ((clone_repository W o owner repo [] (clone_dest o repo)).run
                (effects (h ++ attempt_events ⟨.DirectoryCheckout, owner, repo, d, dir_dest o d⟩
                  false
                  ((download_directory_selective W o owner repo d (dir_dest o d)).run
                    (effects h)).2
                  ++ [Event.effect
                    (.stderr (PROGRAM_NAME ++ ": trying full repo clone...\n".toList))]))).1
              ((clone_repository W o owner repo [] (clone_dest o repo)).run
                (effects (h ++ attempt_events ⟨.DirectoryCheckout, owner, repo, d, dir_dest o d⟩
                  false
                  ((download_directory_selective W o owner repo d (dir_dest o d)).run
                    (effects h)).2
                  ++ [Event.effect
                    (.stderr (PROGRAM_NAME ++ ": trying full repo clone...\n".toList))]))).2) := by
  have hne : d ++ ['/'] ≠ [] := by simp
  have hl : (d ++ ['/']).getLast? = some '/' := by simp
  have hd : substr (d ++ ['/']) 0 ((d ++ ['/']).length - 1) = d := by simp [substr]
  unfold main_retrieve
  simp only [if_neg hne, if_pos hl, hd]
  by_cases hb : ((download_directory_selective W o owner repo d (dir_dest o d)).run
      (effects h)).1 = true
  · simp only [dir_dest] at hb
    simp [hb, prog_run_bind, prog_run_pure, prog_run_ite, traced_run, lift_run, status_of,
      attempt_events, dir_dest]
  · simp only [dir_dest] at hb
    cases hq : o.quiet <;>
      simp [hb, hq, prog_run_bind, prog_run_pure, prog_run_ite, traced_run, lift_run, eprint,
        emit_run, status_of, attempt_events, dir_dest, clone_dest]

theorem main_retrieve_file_run (W : World) (o : Opts) (owner repo path : Str) (h : List Event)
    (hne : path ≠ []) (hns : path.getLast? ≠ some '/') :
    (main_retrieve W o owner repo path).run h =
      if ((download_file W o owner repo path (file_dest o path)).run (effects h)).1 = true then
        (EXIT_SUCCESS,
          attempt_events ⟨.FileFetch, owner, repo, path, file_dest o path⟩ true
            ((download_file W o owner repo path (file_dest o path)).run (effects h)).2)
      else
        (status_of ((download_directory_selective W o owner repo path (dir_dest o path)).run
            (effects (h ++ attempt_events ⟨.FileFetch, owner, repo, path, file_dest o path⟩ false
              ((download_file W o owner repo path (file_dest o path)).run (effects h)).2
              ++ (if o.quiet = true then [] else [Event.effect
                (.stderr (PROGRAM_NAME ++ ": trying as directory...\n".toList))])))).1,
          attempt_events ⟨.FileFetch, owner, repo, path, file_dest o path⟩ false
              ((download_file W o owner repo path (file_dest o path)).run (effects h)).2
            ++ (if o.quiet = true then [] else [Event.effect
                (.stderr (PROGRAM_NAME ++ ": trying as directory...\n".toList))])
            ++ attempt_events ⟨.DirectoryCheckout, owner, repo, path, dir_dest o path⟩
              ((download_directory_selective W o owner repo path (dir_dest o path)).run
                (effects (h ++ attempt_events ⟨.FileFetch, owner, repo, path, file_dest o path⟩
                  false
                  ((download_file W o owner repo path (file_dest o path)).run (effects h)).2
                  ++ (if o.quiet = true then [] else [Event.effect
                    (.stderr (PROGRAM_NAME ++ ": trying as directory...\n".toList))])))).1
              ((download_directory_selective W o owner repo path (dir_dest o path)).run
                (effects (h ++ attempt_events ⟨.FileFetch, owner, repo, path, file_dest o path⟩
                  false
                  ((download_file W o owner repo path (file_dest o path)).run (effects h)).2
                  ++ (if o.quiet = true then [] else [Event.effect
                    (.stderr (PROGRAM_NAME ++ ": trying as directory...\n".toList))])))).2) := by
  unfold main_retrieve
  simp only [if_neg hne, if_neg hns]
  by_cases hb : ((download_file W o owner repo path (file_dest o path)).run (effects h)).1 = true
  · simp only [file_dest] at hb
    simp [hb, prog_run_bind, prog_run_pure, prog_run_ite, traced_run, lift_run, attempt_events,
      file_dest]
  · simp only [file_dest] at hb
    cases hq : o.quiet <;>
      simp [hb, hq, prog_run_bind, prog_run_pure, prog_run_ite, traced_run, lift_run, eprint,
        emit_run, status_of, attempt_events, file_dest, dir_dest]

theorem path_cases (path : Str) :
    path = [] ∨ (∃ d, path = d ++ ['/']) ∨ (path ≠ [] ∧ path.getLast? ≠ some '/') := by
  by_cases h1 : path = []
  · exact Or.inl h1
  · by_cases h2 : path.getLast? = some '/'
    · exact Or.inr (Or.inl ⟨path.dropLast, (List.dropLast_append_getLast? '/' h2).symm⟩)
    · exact Or.inr (Or.inr ⟨h1, h2⟩)

theorem attempts_attempt_events (c : Call) (r : Bool) (es : List Effect) :
    attempts (attempt_events c r es) = [(c, r)] := by
  unfold attempt_events
  rw [attempts_cons_call, attempts_append, attempts_effects, attempts_ret]
  rfl

theorem calls_attempt_events (c : Call) (r : Bool) (es : List Effect) :
    calls (attempt_events c r es) = [c] := by
  unfold attempt_events
  rw [calls_cons_call, calls_append, calls_effects, calls_ret]
  rfl

theorem effects_attempt_events (c : Call) (r : Bool) (es : List Effect) :
    effects (attempt_events c r es) = es := by
  unfold attempt_events
  rw [effects_cons_call, effects_append, effects_map, effects_ret]
  simp

theorem exit_success_ne_failure : EXIT_SUCCESS ≠ EXIT_FAILURE := by decide

theorem status_of_eq_success (b : Bool) : status_of b = EXIT_SUCCESS ↔ b = true := by
  cases b <;> simp [status_of, exit_success_ne_failure, Ne.symm exit_success_ne_failure]

theorem main_retrieve_clone_shape (W : World) (o : Opts) (owner repo : Str) (h : List Event) :
    ∃ r1 es1,
      (clone_repository W o owner repo [] (clone_dest o repo)).run (effects h) = (r1, es1) ∧
      (main_retrieve W o owner repo []).run h
        = (status_of r1, attempt_events ⟨.FullClone, owner, repo, [], clone_dest o repo⟩ r1 es1) :=
  ⟨((clone_repository W o owner repo [] (clone_dest o repo)).run (effects h)).1,
   ((clone_repository W o owner repo [] (clone_dest o repo)).run (effects h)).2, rfl,
   main_retrieve_clone_run W o owner repo h⟩

theorem main_retrieve_dir_shape (W : World) (o : Opts) (owner repo d : Str) (h : List Event) :
    ∃ r1 es1,
      (download_directory_selective W o owner repo d (dir_dest o d)).run (effects h) = (r1, es1) ∧
      (((r1 = true ∨ o.quiet = true) ∧
        (main_retrieve W o owner repo (d ++ ['/'])).run h
          = (status_of r1,
              attempt_events ⟨.DirectoryCheckout, owner, repo, d, dir_dest o d⟩ r1 es1)) ∨
       (r1 = false ∧ o.quiet = false ∧ ∃ h2 r2 es2,
        (clone_repository W o owner repo [] (clone_dest o repo)).run h2 = (r2, es2) ∧
        (main_retrieve W o owner repo (d ++ ['/'])).run h
          = (status_of r2,
              attempt_events ⟨.DirectoryCheckout, owner, repo, d, dir_dest o d⟩ false es1
                ++ [Event.effect
                  (.stderr (PROGRAM_NAME ++ ": trying full repo clone...\n".toList))]
                ++ attempt_events ⟨.FullClone, owner, repo, [], clone_dest o repo⟩ r2 es2))) := by
  refine ⟨((download_directory_selective W o owner repo d (dir_dest o d)).run (effects h)).1,
    ((download_directory_selective W o owner repo d (dir_dest o d)).run (effects h)).2, rfl, ?_⟩
  rw [main_retrieve_dir_run]
  by_cases hc : ((download_directory_selective W o owner repo d (dir_dest o d)).run
      (effects h)).1 = true ∨ o.quiet = true
  · rw [if_pos hc]
    exact Or.inl ⟨hc, rfl⟩
  · rw [if_neg hc]
    have h1 : ((download_directory_selective W o owner repo d (dir_dest o d)).run
        (effects h)).1 = false := by
      simpa using fun hh => hc (Or.inl hh)
    have h2 : o.quiet = false := by
      simpa using fun hh => hc (Or.inr hh)
    exact Or.inr ⟨h1, h2,
      effects (h ++ attempt_events ⟨.DirectoryCheckout, owner, repo, d, dir_dest o d⟩ false
        ((download_directory_selective W o owner repo d (dir_dest o d)).run (effects h)).2
        ++ [Event.effect (.stderr (PROGRAM_NAME ++ ": trying full repo clone...\n".toList))]),
      _, _, rfl, rfl⟩

theorem main_retrieve_file_shape (W : World) (o : Opts) (owner repo path : Str) (h : List Event)
    (hne : path ≠ []) (hns : path.getLast? ≠ some '/') :
    ∃ r1 es1,
      (download_file W o owner repo path (file_dest o path)).run (effects h) = (r1, es1) ∧
      ((r1 = true ∧
        (main_retrieve W o owner repo path).run h
          = (EXIT_SUCCESS,
              attempt_events ⟨.FileFetch, owner, repo, path, file_dest o path⟩ true es1)) ∨
       (r1 = false ∧ ∃ (msg : List Effect) (h2 : History) (r2 : Bool) (es2 : List Effect),
        (∀ e ∈ msg, e.is_subprocess = false) ∧
        (download_directory_selective W o owner repo path (dir_dest o path)).run h2 = (r2, es2) ∧
        (main_retrieve W o owner repo path).run h
          = (status_of r2,
              attempt_events ⟨.FileFetch, owner, repo, path, file_dest o path⟩ false es1
                ++ msg.map Event.effect
                ++ attempt_events ⟨.DirectoryCheckout, owner, repo, path, dir_dest o path⟩
                    r2 es2))) := by
  refine ⟨((download_file W o owner repo path (file_dest o path)).run (effects h)).1,
    ((download_file W o owner repo path (file_dest o path)).run (effects h)).2, rfl, ?_⟩
  rw [main_retrieve_file_run W o owner repo path h hne hns]
  by_cases hc : ((download_file W o owner repo path (file_dest o path)).run (effects h)).1 = true
  · rw [if_pos hc]
    exact Or.inl ⟨hc, rfl⟩
  · rw [if_neg hc]
    have h1 : ((download_file W o owner repo path (file_dest o path)).run (effects h)).1
        = false := by
      simpa using hc
    have hm : (if o.quiet = true then []
          else [Event.effect (.stderr (PROGRAM_NAME ++ ": trying as directory...\n".toList))])
        = List.map Event.effect (if o.quiet = true then []
          else [Effect.stderr (PROGRAM_NAME ++ ": trying as directory...\n".toList)]) := by
      cases o.quiet <;> rfl
    rw [hm]
    refine Or.inr ⟨h1, _,
      effects (h ++ attempt_events ⟨.FileFetch, owner, repo, path, file_dest o path⟩ false
        ((download_file W o owner repo path (file_dest o path)).run (effects h)).2
        ++ List.map Event.effect (if o.quiet = true then []
          else [Effect.stderr (PROGRAM_NAME ++ ": trying as directory...\n".toList)])),
      _, _, ?_, rfl, rfl⟩
    intro e he
    split at he
    · simp at he
    · simp only [List.mem_singleton] at he
      subst he
      rfl

theorem attempts_cons_effect (e : Effect) (tr : List Event) :
    attempts (Event.effect e :: tr) = attempts tr := rfl

theorem calls_cons_effect (e : Effect) (tr : List Event) :
    calls (Event.effect e :: tr) = calls tr := rfl

theorem effects_cons_effect (e : Effect) (tr : List Event) :
    effects (Event.effect e :: tr) = e :: effects tr := rfl

theorem attempts_singleton_effect (e : Effect) : attempts [Event.effect e] = [] := rfl

theorem calls_singleton_effect (e : Effect) : calls [Event.effect e] = [] := rfl

theorem effects_singleton_effect (e : Effect) : effects [Event.effect e] = [e] := rfl

/-- C6.  The first retrieval operation that `main` enters is determined by the
path: `clone_repository` for the empty path; `download_directory_selective`,
with the path without its final `/`, for a path ending in `/`;
`download_file`, with the path unchanged, for any other path. -/
theorem main_retrieve_first_call (W : World) (o : Opts) (owner repo path : Str)
    (h : List Event) :
    (path = [] → ∃ out, (calls ((main_retrieve W o owner repo path).run h).2).head?
        = some ⟨.FullClone, owner, repo, [], out⟩) ∧
    (∀ d, path = d ++ ['/'] → ∃ out, (calls ((main_retrieve W o owner repo path).run h).2).head?
        = some ⟨.DirectoryCheckout, owner, repo, d, out⟩) ∧
    (path ≠ [] → path.getLast? ≠ some '/' →
      ∃ out, (calls ((main_retrieve W o owner repo path).run h).2).head?
        = some ⟨.FileFetch, owner, repo, path, out⟩) := by
  refine ⟨?_, ?_, ?_⟩
  · rintro rfl
    obtain ⟨r1, es1, -, hrun⟩ := main_retrieve_clone_shape W o owner repo h
    exact ⟨clone_dest o repo, by rw [hrun]; simp [calls_attempt_events]⟩
  · rintro d rfl
    obtain ⟨r1, es1, -, ⟨-, hrun⟩ | ⟨-, -, h2, r2, es2, -, hrun⟩⟩ :=
      main_retrieve_dir_shape W o owner repo d h
    · exact ⟨dir_dest o d, by rw [hrun]; simp [calls_attempt_events]⟩
    · exact ⟨dir_dest o d, by rw [hrun]; simp [calls_append, calls_attempt_events]⟩
  · intro hne hns
    obtain ⟨r1, es1, -, ⟨-, hrun⟩ | ⟨-, msg, h2, r2, es2, -, -, hrun⟩⟩ :=
      main_retrieve_file_shape W o owner repo path h hne hns
    · exact ⟨file_dest o path, by rw [hrun]; simp [calls_attempt_events]⟩
    · exact ⟨file_dest o path, by rw [hrun]; simp [calls_append, calls_attempt_events]⟩

/-- Witness of C6: the path `LICENSES` goes to `download_file` first. -/
theorem main_retrieve_first_call_witness :
    ∃ out, (calls ((main_retrieve (example_world [] (fun _ => 0) (fun _ => none)) default_opts
        "torvalds".toList "linux".toList "LICENSES".toList).run []).2).head?
      = some ⟨.FileFetch, "torvalds".toList, "linux".toList, "LICENSES".toList, out⟩ :=
  (main_retrieve_first_call (example_world [] (fun _ => 0) (fun _ => none)) default_opts
    "torvalds".toList "linux".toList "LICENSES".toList []).2.2 (by decide) (by decide)

/-- C7.  For a non-empty path without trailing `/`: if the first operation
(`download_file`) fails, `main` makes exactly one more attempt, which is
`download_directory_selective` with the same owner, repo and path and with
destination the basename of the path (joined under the output directory when
that is neither `./` nor `.`); the exit status is success exactly when that
attempt succeeds. -/
theorem main_retrieve_file_then_directory (W : World) (o : Opts) (owner repo path : Str)
    (h : List Event) (hne : path ≠ []) (hns : path.getLast? ≠ some '/')
    (hfail : (attempts ((main_retrieve W o owner repo path).run h).2).head?.map Prod.snd
      = some false) :
    ∃ out1 r,
      attempts ((main_retrieve W o owner repo path).run h).2
        = [(⟨.FileFetch, owner, repo, path, out1⟩, false),
           (⟨.DirectoryCheckout, owner, repo, path,
              if is_current_dir o.output_dir then filename path
              else path_join o.output_dir (filename path)⟩, r)] ∧
      calls ((main_retrieve W o owner repo path).run h).2
        = [⟨.FileFetch, owner, repo, path, out1⟩,
           ⟨.DirectoryCheckout, owner, repo, path,
              if is_current_dir o.output_dir then filename path
              else path_join o.output_dir (filename path)⟩] ∧
      (((main_retrieve W o owner repo path).run h).1 = EXIT_SUCCESS ↔ r = true) := by
  obtain ⟨r1, es1, -, ⟨-, hrun⟩ | ⟨-, msg, h2, r2, es2, -, -, hrun⟩⟩ :=
    main_retrieve_file_shape W o owner repo path h hne hns
  · rw [hrun] at hfail
    simp [attempts_attempt_events] at hfail
  · rw [hrun]
    refine ⟨file_dest o path, r2, ?_, ?_, status_of_eq_success r2⟩
    · simp [attempts_append, attempts_attempt_events, attempts_effects, dir_dest]
    · simp [calls_append, calls_attempt_events, calls_effects, dir_dest]

/-- Witness of C7: `curl` fails, `git` succeeds, the path is `LICENSES`. -/
theorem main_retrieve_file_then_directory_witness :
    ∃ out1 r,
      attempts ((main_retrieve
          (example_world [] (fun c => if "curl".toList.isPrefixOf c then 5632 else 0)
            (fun _ => none))
          default_opts "torvalds".toList "linux".toList "LICENSES".toList).run []).2
        = [(⟨.FileFetch, "torvalds".toList, "linux".toList, "LICENSES".toList, out1⟩, false),
           (⟨.DirectoryCheckout, "torvalds".toList, "linux".toList, "LICENSES".toList,
              if is_current_dir default_opts.output_dir then filename "LICENSES".toList
              else path_join default_opts.output_dir (filename "LICENSES".toList)⟩, r)] ∧
      calls ((main_retrieve
          (example_world [] (fun c => if "curl".toList.isPrefixOf c then 5632 else 0)
            (fun _ => none))
          default_opts "torvalds".toList "linux".toList "LICENSES".toList).run []).2
        = [⟨.FileFetch, "torvalds".toList, "linux".toList, "LICENSES".toList, out1⟩,
           ⟨.DirectoryCheckout, "torvalds".toList, "linux".toList, "LICENSES".toList,
              if is_current_dir default_opts.output_dir then filename "LICENSES".toList
              else path_join default_opts.output_dir (filename "LICENSES".toList)⟩] ∧
      (((main_retrieve
          (example_world [] (fun c => if "curl".toList.isPrefixOf c then 5632 else 0)
            (fun _ => none))
          default_opts "torvalds".toList "linux".toList "LICENSES".toList).run []).1
        = EXIT_SUCCESS ↔ r = true) :=
  main_retrieve_file_then_directory
    (example_world [] (fun c => if "curl".toList.isPrefixOf c then 5632 else 0) (fun _ => none))
    default_opts "torvalds".toList "linux".toList "LICENSES".toList [] (by decide) (by decide)
    (by decide)

/-- C8, counterexample: with the default options, the path `docs/` and a
`git` that always fails, `main` goes on to `clone_repository` after the failed
directory checkout. -/
theorem main_retrieve_directory_then_clone :
    calls ((main_retrieve (example_world [] (fun _ => 256) (fun _ => none)) default_opts
        "foo".toList "bar".toList "docs/".toList).run []).2
      = [⟨.DirectoryCheckout, "foo".toList, "bar".toList, "docs".toList, "docs".toList⟩,
         ⟨.FullClone, "foo".toList, "bar".toList, [], "bar".toList⟩] := by
  decide

/-- C8, amended.  For a path `d/` with an explicit trailing `/` and `opt_quiet`
clear: `main` attempts `download_directory_selective` on `d` first; if that
succeeds it is the only attempt and the exit status is success; if it fails,
`main` makes exactly one more attempt, `clone_repository` of the whole
repository, and the exit status is success exactly when that one succeeds. -/
theorem main_retrieve_directory_fallback (W : World) (o : Opts) (owner repo d : Str)
    (h : List Event) (hq : o.quiet = false) :
    (attempts ((main_retrieve W o owner repo (d ++ ['/'])).run h).2
        = [(⟨.DirectoryCheckout, owner, repo, d,
              if is_current_dir o.output_dir then filename d
              else path_join o.output_dir (filename d)⟩, true)] ∧
      ((main_retrieve W o owner repo (d ++ ['/'])).run h).1 = EXIT_SUCCESS) ∨
    (∃ r2,
      attempts ((main_retrieve W o owner repo (d ++ ['/'])).run h).2
        = [(⟨.DirectoryCheckout, owner, repo, d,
              if is_current_dir o.output_dir then filename d
              else path_join o.output_dir (filename d)⟩, false),
           (⟨.FullClone, owner, repo, [],
              if is_current_dir o.output_dir then repo else o.output_dir⟩, r2)] ∧
      (((main_retrieve W o owner repo (d ++ ['/'])).run h).1 = EXIT_SUCCESS ↔ r2 = true)) := by
  obtain ⟨r1, es1, -, ⟨hc, hrun⟩ | ⟨-, -, h2, r2, es2, -, hrun⟩⟩ :=
    main_retrieve_dir_shape W o owner repo d h
  · have hr1 : r1 = true := by
      rcases hc with hc | hc
      · exact hc
      · rw [hq] at hc
        cases hc
    subst hr1
    left
    rw [hrun]
    exact ⟨by simp [attempts_attempt_events, dir_dest], (status_of_eq_success true).2 rfl⟩
  · right
    rw [hrun]
    refine ⟨r2, ?_, status_of_eq_success r2⟩
    simp [attempts_append, attempts_attempt_events, attempts_cons_effect, dir_dest,
      clone_dest]

/-- Witness of C8 (amended): the default options, the path `docs/` and a `git`
that always fails. -/
theorem main_retrieve_directory_fallback_witness :
    (attempts ((main_retrieve (example_world [] (fun _ => 256) (fun _ => none)) default_opts
          "foo".toList "bar".toList ("docs".toList ++ ['/'])).run []).2
        = [(⟨.DirectoryCheckout, "foo".toList, "bar".toList, "docs".toList,
              if is_current_dir default_opts.output_dir then filename "docs".toList
              else path_join default_opts.output_dir (filename "docs".toList)⟩, true)] ∧
      ((main_retrieve (example_world [] (fun _ => 256) (fun _ => none)) default_opts
          "foo".toList "bar".toList ("docs".toList ++ ['/'])).run []).1 = EXIT_SUCCESS) ∨
    (∃ r2,
      attempts ((main_retrieve (example_world [] (fun _ => 256) (fun _ => none)) default_opts
          "foo".toList "bar".toList ("docs".toList ++ ['/'])).run []).2
        = [(⟨.DirectoryCheckout, "foo".toList, "bar".toList, "docs".toList,
              if is_current_dir default_opts.output_dir then filename "docs".toList
              else path_join default_opts.output_dir (filename "docs".toList)⟩, false),
           (⟨.FullClone, "foo".toList, "bar".toList, [],
              if is_current_dir default_opts.output_dir then "bar".toList
              else default_opts.output_dir⟩, r2)] ∧
      (((main_retrieve (example_world [] (fun _ => 256) (fun _ => none)) default_opts
          "foo".toList "bar".toList ("docs".toList ++ ['/'])).run []).1 = EXIT_SUCCESS
        ↔ r2 = true)) :=
  main_retrieve_directory_fallback (example_world [] (fun _ => 256) (fun _ => none))
    default_opts "foo".toList "bar".toList "docs".toList [] rfl

/-- C9.  In every run the retrieval operations attempted are one or two, no
strategy occurs twice, a second attempt is strictly broader than the first
(`FileFetch < DirectoryCheckout < FullClone`), every operation entered is
left, a second attempt is made only after a failed first one, and when the
second attempt fails the exit status is failure. -/
theorem main_retrieve_attempts (W : World) (o : Opts) (owner repo path : Str) (h : List Event) :
    attempts ((main_retrieve W o owner repo path).run h).2 ≠ [] ∧
    (attempts ((main_retrieve W o owner repo path).run h).2).length ≤ 2 ∧
    ((attempts ((main_retrieve W o owner repo path).run h).2).map (fun a => a.1.op)).Nodup ∧
    ((attempts ((main_retrieve W o owner repo path).run h).2).map
      (fun a => a.1.op.rank)).Pairwise (· < ·) ∧
    calls ((main_retrieve W o owner repo path).run h).2
      = (attempts ((main_retrieve W o owner repo path).run h).2).map Prod.fst ∧
    (∀ a b, attempts ((main_retrieve W o owner repo path).run h).2 = [a, b] →
      a.2 = false ∧
      (b.2 = false → ((main_retrieve W o owner repo path).run h).1 = EXIT_FAILURE)) := by
  rcases path_cases path with rfl | ⟨d, rfl⟩ | ⟨hne, hns⟩
  · obtain ⟨r1, es1, -, hrun⟩ := main_retrieve_clone_shape W o owner repo h
    rw [hrun]
    simp [attempts_attempt_events, calls_attempt_events]
  · obtain ⟨r1, es1, -, ⟨-, hrun⟩ | ⟨-, -, h2, r2, es2, -, hrun⟩⟩ :=
      main_retrieve_dir_shape W o owner repo d h
    · rw [hrun]
      simp [attempts_attempt_events, calls_attempt_events]
    · rw [hrun]
      simp only [attempts_append, attempts_attempt_events, attempts_singleton_effect,
        calls_append, calls_attempt_events, calls_singleton_effect]
      refine ⟨by simp, by simp, by simp, by simp [Op.rank], by simp, ?_⟩
      intro a b hab
      simp only [List.append_nil, List.singleton_append, List.cons.injEq, and_true] at hab
      obtain ⟨rfl, rfl⟩ := hab
      refine ⟨rfl, fun hb => ?_⟩
      simp only at hb
      subst hb
      rfl
  · obtain ⟨r1, es1, -, ⟨-, hrun⟩ | ⟨-, msg, h2, r2, es2, -, -, hrun⟩⟩ :=
      main_retrieve_file_shape W o owner repo path h hne hns
    · rw [hrun]
      simp [attempts_attempt_events, calls_attempt_events]
    · rw [hrun]
      simp only [attempts_append, attempts_attempt_events, attempts_effects,
        calls_append, calls_attempt_events, calls_effects]
      refine ⟨by simp, by simp, by simp, by simp [Op.rank], by simp, ?_⟩
      intro a b hab
      simp only [List.append_nil, List.singleton_append, List.cons.injEq, and_true] at hab
      obtain ⟨rfl, rfl⟩ := hab
      refine ⟨rfl, fun hb => ?_⟩
      simp only at hb
      subst hb
      rfl

/-! ## A destination that already exists -/

theorem path_available_for_write_exists (W : World) (p : Str) (h : History)
    (hex : ∀ h1, W.fs_exists h1 p = true) :
    (path_available_for_write W p).run h
      = (false, [Effect.fs_exists p,
          Effect.stderr (PROGRAM_NAME ++ ": destination exists: ".toList ++ p ++ "\n".toList)]) := by
  unfold path_available_for_write
  simp [act_run_bind, act_run_pure, act_run_ite, query_run, hex, eprint, emit_run]

theorem download_directory_selective_exists (W : World) (o : Opts)
    (owner repo path output : Str) (h : History) (hex : ∀ h1, W.fs_exists h1 output = true) :
    ∃ es, (download_directory_selective W o owner repo path output).run h = (false, es)
      ∧ ∀ e ∈ es, e.is_subprocess = false := by
  unfold download_directory_selective
  cases hq : o.quiet <;>
    simp [act_run_bind, act_run_pure, act_run_ite, path_available_for_write_exists W output _ hex,
      print, emit_run, Effect.is_subprocess]

theorem download_file_exists (W : World) (o : Opts)
    (owner repo path output : Str) (h : History) (hex : ∀ h1, W.fs_exists h1 output = true) :
    ∃ es, (download_file W o owner repo path output).run h = (false, es)
      ∧ ∀ e ∈ es, e.is_subprocess = false := by
  unfold download_file
  cases hq : o.quiet <;>
    simp [act_run_bind, act_run_pure, act_run_ite, path_available_for_write_exists W output _ hex,
      print, emit_run, Effect.is_subprocess]

theorem clone_repository_exists (W : World) (o : Opts)
    (owner repo path output : Str) (h : History) (hex : ∀ h1, W.fs_exists h1 output = true) :
    ∃ es, (clone_repository W o owner repo path output).run h = (false, es)
      ∧ ∀ e ∈ es, e.is_subprocess = false := by
  unfold clone_repository
  cases hq : o.quiet <;>
    simp [act_run_bind, act_run_pure, act_run_ite, path_available_for_write_exists W output _ hex,
      print, emit_run, Effect.is_subprocess]

set_option maxRecDepth 100000 in
/-- C10, counterexample: `docs/README` exists, `README` does not.  With the
default options and the path `docs/README`, `download_file` fails on its
destination, `main` retries with `download_directory_selective` into `README`,
which starts subprocesses (`git clone` first), and the exit status is success. -/
theorem main_retrieve_destination_exists_retry :
    calls ((main_retrieve (example_world ["docs/README".toList] (fun _ => 0) (fun _ => none))
        default_opts "foo".toList "bar".toList "docs/README".toList).run []).2
      = [⟨.FileFetch, "foo".toList, "bar".toList, "docs/README".toList, "docs/README".toList⟩,
         ⟨.DirectoryCheckout, "foo".toList, "bar".toList, "docs/README".toList,
           "README".toList⟩] ∧
    ((main_retrieve (example_world ["docs/README".toList] (fun _ => 0) (fun _ => none))
        default_opts "foo".toList "bar".toList "docs/README".toList).run []).1 = EXIT_SUCCESS ∧
    (effects ((main_retrieve (example_world ["docs/README".toList] (fun _ => 0) (fun _ => none))
        default_opts "foo".toList "bar".toList "docs/README".toList).run []).2).filter
          Effect.is_subprocess
      = [.system ("GIT_TERMINAL_PROMPT=0 git -c http.lowSpeedLimit=1000 -c http.lowSpeedTime=10 "
            ++ "clone --filter=blob:none --no-checkout --depth 1 --progress "
            ++ "\x27https://github.com/foo/bar.git\x27 \x27/tmp/sip_XXXXXX\x27 >/dev/null 2>&1").toList,
         .system ("GIT_TERMINAL_PROMPT=0 git -C \x27/tmp/sip_XXXXXX\x27 sparse-checkout init --cone"
            ++ " >/dev/null 2>&1").toList,
         .system ("GIT_TERMINAL_PROMPT=0 git -C \x27/tmp/sip_XXXXXX\x27 sparse-checkout set -- "
            ++ "\x27docs/README\x27 >/dev/null 2>&1").toList,
         .system ("GIT_TERMINAL_PROMPT=0 git -C \x27/tmp/sip_XXXXXX\x27 checkout"
            ++ " >/dev/null 2>&1").toList] := by
  decide

/-- The retrieval phase when the destination of every retrieval operation
that it enters already exists: every attempt fails, the exit status is
failure and the phase starts no subprocess; with the empty path
(`clone_repository`) there is a single attempt. -/
theorem main_retrieve_destination_exists (W : World) (o : Opts) (owner repo path : Str)
    (h : List Event)
    (hex : ∀ c ∈ calls ((main_retrieve W o owner repo path).run h).2,
      ∀ h1, W.fs_exists h1 c.output = true) :
    ((main_retrieve W o owner repo path).run h).1 = EXIT_FAILURE ∧
    (∀ e ∈ effects ((main_retrieve W o owner repo path).run h).2, e.is_subprocess = false) ∧
    (∀ a ∈ attempts ((main_retrieve W o owner repo path).run h).2, a.2 = false) ∧
    (path = [] → (attempts ((main_retrieve W o owner repo path).run h).2).length = 1) := by
  rcases path_cases path with rfl | ⟨d, rfl⟩ | ⟨hne, hns⟩
  · obtain ⟨r1, es1, hop, hrun⟩ := main_retrieve_clone_shape W o owner repo h
    rw [hrun] at hex ⊢
    have hex1 := hex ⟨.FullClone, owner, repo, [], clone_dest o repo⟩
      (by simp [calls_attempt_events])
    obtain ⟨es, he, hs⟩ := clone_repository_exists W o owner repo [] (clone_dest o repo)
      (effects h) hex1
    rw [he] at hop
    obtain ⟨rfl, rfl⟩ := Prod.mk.inj hop
    simpa [attempts_attempt_events, effects_attempt_events, status_of] using hs
  · obtain ⟨r1, es1, hop, ⟨hc, hrun⟩ | ⟨-, -, h2, r2, es2, hop2, hrun⟩⟩ :=
      main_retrieve_dir_shape W o owner repo d h
    · rw [hrun] at hex ⊢
      have hex1 := hex ⟨.DirectoryCheckout, owner, repo, d, dir_dest o d⟩
        (by simp [calls_attempt_events])
      obtain ⟨es, he, hs⟩ := download_directory_selective_exists W o owner repo d (dir_dest o d)
        (effects h) hex1
      rw [he] at hop
      obtain ⟨rfl, rfl⟩ := Prod.mk.inj hop
      simpa [attempts_attempt_events, effects_attempt_events, status_of] using hs
    · rw [hrun] at hex ⊢
      have hex1 := hex ⟨.DirectoryCheckout, owner, repo, d, dir_dest o d⟩
        (by simp [calls_append, calls_attempt_events])
      have hex2 := hex ⟨.FullClone, owner, repo, [], clone_dest o repo⟩
        (by simp [calls_append, calls_attempt_events, calls_cons_effect])
      obtain ⟨es, he, hs⟩ := download_directory_selective_exists W o owner repo d (dir_dest o d)
        (effects h) hex1
      rw [he] at hop
      obtain ⟨-, rfl⟩ := Prod.mk.inj hop
      obtain ⟨es', he', hs'⟩ := clone_repository_exists W o owner repo [] (clone_dest o repo)
        h2 hex2
      rw [he'] at hop2
      obtain ⟨rfl, rfl⟩ := Prod.mk.inj hop2
      refine ⟨rfl, ?_, ?_, by simp⟩
      · intro e he
        simp only [effects_append, effects_attempt_events, effects_singleton_effect,
          List.mem_append, List.mem_singleton] at he
        rcases he with (he | rfl) | he
        · exact hs e he
        · rfl
        · exact hs' e he
      · simp [attempts_append, attempts_attempt_events, attempts_cons_effect]
  · obtain ⟨r1, es1, hop, ⟨hr1, hrun⟩ | ⟨-, msg, h2, r2, es2, hmsg, hop2, hrun⟩⟩ :=
      main_retrieve_file_shape W o owner repo path h hne hns
    · rw [hrun] at hex
      have hex1 := hex ⟨.FileFetch, owner, repo, path, file_dest o path⟩
        (by simp [calls_attempt_events])
      obtain ⟨es, he, hs⟩ := download_file_exists W o owner repo path (file_dest o path)
        (effects h) hex1
      rw [he] at hop
      obtain ⟨rfl, rfl⟩ := Prod.mk.inj hop
      cases hr1
    · rw [hrun] at hex ⊢
      have hex1 := hex ⟨.FileFetch, owner, repo, path, file_dest o path⟩
        (by simp [calls_append, calls_attempt_events])
      have hex2 := hex ⟨.DirectoryCheckout, owner, repo, path, dir_dest o path⟩
        (by simp [calls_append, calls_attempt_events, calls_effects])
      obtain ⟨es, he, hs⟩ := download_file_exists W o owner repo path (file_dest o path)
        (effects h) hex1
      rw [he] at hop
      obtain ⟨-, rfl⟩ := Prod.mk.inj hop
      obtain ⟨es', he', hs'⟩ := download_directory_selective_exists W o owner repo path
        (dir_dest o path) h2 hex2
      rw [he'] at hop2
      obtain ⟨rfl, rfl⟩ := Prod.mk.inj hop2
      refine ⟨rfl, ?_, ?_, fun hp => absurd hp hne⟩
      · intro e he
        simp only [effects_append, effects_attempt_events, effects_map,
          List.mem_append] at he
        rcases he with (he | he) | he
        · exact hs e he
        · exact hmsg e he
        · exact hs' e he
      · simp [attempts_append, attempts_attempt_events, attempts_effects]

/-- An instance of the retrieval phase with existing destinations: `README`
exists and is the destination of both attempts for the path `README`. -/
theorem main_retrieve_destination_exists_witness :
    ((main_retrieve (example_world ["README".toList] (fun _ => 0) (fun _ => none)) default_opts
        "foo".toList "bar".toList "README".toList).run []).1 = EXIT_FAILURE ∧
    (∀ e ∈ effects ((main_retrieve (example_world ["README".toList] (fun _ => 0) (fun _ => none))
        default_opts "foo".toList "bar".toList "README".toList).run []).2,
      e.is_subprocess = false) ∧
    (∀ a ∈ attempts ((main_retrieve (example_world ["README".toList] (fun _ => 0) (fun _ => none))
        default_opts "foo".toList "bar".toList "README".toList).run []).2, a.2 = false) ∧
    ("README".toList = [] →
      (attempts ((main_retrieve (example_world ["README".toList] (fun _ => 0) (fun _ => none))
        default_opts "foo".toList "bar".toList "README".toList).run []).2).length = 1) :=
  main_retrieve_destination_exists
    (example_world ["README".toList] (fun _ => 0) (fun _ => none)) default_opts
    "foo".toList "bar".toList "README".toList [] (by
      intro c hc h1
      have hcalls : calls ((main_retrieve
          (example_world ["README".toList] (fun _ => 0) (fun _ => none)) default_opts
          "foo".toList "bar".toList "README".toList).run []).2
          = [⟨.FileFetch, "foo".toList, "bar".toList, "README".toList, "README".toList⟩,
             ⟨.DirectoryCheckout, "foo".toList, "bar".toList, "README".toList,
               "README".toList⟩] := by
        decide
      rw [hcalls] at hc
      simp only [List.mem_cons, List.mem_singleton, List.not_mem_nil, or_false] at hc
      rcases hc with rfl | rfl <;> rfl)

/-! ## The whole run of `main` with a destination that exists -/

theorem not_network_of_not_subprocess (e : Effect) (h : e.is_subprocess = false) :
    e.is_network = false := by
  cases e <;> simp [Effect.is_subprocess, Effect.is_network] at h ⊢

theorem check_dependencies_no_network (W : World) (h : History) :
    ∀ e ∈ ((check_dependencies W).run h).2, e.is_network = false := by
  unfold check_dependencies
  simp only [act_run_bind, act_run_pure, run_system, query_run]
  intro e he
  split_ifs at he <;>
    simp [act_run_bind, act_run_pure, eprint, emit_run] at he <;>
    rcases he with rfl | rfl | rfl <;> decide

theorem main_shape (W : World) (o : Opts) (args : List Str) (h : List Event) :
    ∃ pre : List Effect, (∀ e ∈ pre, e.is_network = false) ∧
      ((main W o args).run h = (EXIT_FAILURE, pre.map Event.effect) ∨
       ∃ o1 owner repo path,
        (main W o args).run h
          = (((main_retrieve W o1 owner repo path).run (h ++ pre.map Event.effect)).1,
             pre.map Event.effect
              ++ ((main_retrieve W o1 owner repo path).run (h ++ pre.map Event.effect)).2)) := by
  have hdeps := check_dependencies_no_network W (effects h)
  unfold main
  simp only [prog_run_bind, lift_run]
  by_cases hd : ((check_dependencies W).run (effects h)).1 = true
  swap
  · refine ⟨((check_dependencies W).run (effects h)).2, hdeps, Or.inl ?_⟩
    simp [hd, prog_run_pure]
  by_cases hqv : (o.quiet && o.verbose) = true
  · refine ⟨((check_dependencies W).run (effects h)).2 ++
      [Effect.stderr (PROGRAM_NAME
        ++ ": --quiet and --verbose are mutually exclusive\n".toList)], ?_, Or.inl ?_⟩
    · intro e he
      rcases List.mem_append.1 he with he | he
      · exact hdeps e he
      · simp only [List.mem_singleton] at he; subst he; rfl
    · simp [hd, hqv, prog_run_pure, prog_run_bind, lift_run, eprint, emit_run]
  have hqv1 : (o.quiet && o.verbose) = false := by simpa using hqv
  have musage : ∀ (msg : Str), ∀ e ∈ ((check_dependencies W).run (effects h)).2 ++
      [Effect.stderr msg, Effect.stderr ("Try ".toList
        ++ in_quotes (PROGRAM_NAME ++ " --help".toList)
        ++ " for more information.\n".toList)], e.is_network = false := by
    intro msg e he
    rcases List.mem_append.1 he with he | he
    · exact hdeps e he
    · simp only [List.mem_cons, List.mem_singleton, List.not_mem_nil, or_false] at he
      rcases he with rfl | rfl <;> rfl
  cases args with
  | nil =>
      refine ⟨_, musage (PROGRAM_NAME ++ ": missing repository\n".toList), Or.inl ?_⟩
      simp [hd, hqv1, prog_run_pure, prog_run_bind, lift_run, eprint, emit_run, usage_failure]
  | cons repo_arg rest =>
      cases hparse : parse_github_url repo_arg with
      | none =>
          refine ⟨((check_dependencies W).run (effects h)).2 ++
            [Effect.stderr (PROGRAM_NAME
              ++ ": invalid GitHub URL or repo format\n".toList)], ?_, Or.inl ?_⟩
          · intro e he
            rcases List.mem_append.1 he with he | he
            · exact hdeps e he
            · simp only [List.mem_singleton] at he; subst he; rfl
          · simp [hd, hqv1, hparse, prog_run_pure, prog_run_bind, lift_run, eprint, emit_run]
      | some t =>
          obtain ⟨owner, repo, path, branch⟩ := t
          have many := musage (PROGRAM_NAME ++ ": too many arguments\n".toList)
          rcases path with _ | ⟨c, cs⟩
          · rcases rest with _ | ⟨p, rest1⟩
            · refine ⟨_, hdeps, Or.inr ⟨(if branch ≠ [] ∧ o.branch = [] ∧ branch ≠ "master".toList ∧ branch ≠ "main".toList then
                (⟨o.verbose, o.quiet, o.timeout, o.output_dir, branch⟩ : Opts) else o), owner, repo, [], ?_⟩⟩
              simp [hd, hqv1, hparse, prog_run_pure, prog_run_bind, lift_run]
            · rcases rest1 with _ | ⟨p2, rest2⟩
              · refine ⟨_, hdeps, Or.inr ⟨(if branch ≠ [] ∧ o.branch = [] ∧ branch ≠ "master".toList ∧ branch ≠ "main".toList then
                  (⟨o.verbose, o.quiet, o.timeout, o.output_dir, branch⟩ : Opts) else o), owner, repo, p, ?_⟩⟩
                simp [hd, hqv1, hparse, prog_run_pure, prog_run_bind, lift_run]
              · refine ⟨_, many, Or.inl ?_⟩
                simp [hd, hqv1, hparse, prog_run_pure, prog_run_bind, lift_run, eprint,
                  emit_run, usage_failure]
          · rcases rest with _ | ⟨p, rest1⟩
            · refine ⟨_, hdeps, Or.inr ⟨(if branch ≠ [] ∧ o.branch = [] ∧ branch ≠ "master".toList ∧ branch ≠ "main".toList then
                (⟨o.verbose, o.quiet, o.timeout, o.output_dir, branch⟩ : Opts) else o), owner, repo, c :: cs, ?_⟩⟩
              simp [hd, hqv1, hparse, prog_run_pure, prog_run_bind, lift_run]
            · refine ⟨_, many, Or.inl ?_⟩
              simp [hd, hqv1, hparse, prog_run_pure, prog_run_bind, lift_run, eprint,
                emit_run, usage_failure]

theorem main_retrieve_selected_exists (W : World) (o : Opts) (owner repo path : Str)
    (h : List Event) (c : Call)
    (hsel : (calls ((main_retrieve W o owner repo path).run h).2).head? = some c)
    (hex : ∀ h1, W.fs_exists h1 c.output = true) :
    ∃ es1 rest,
      ((main_retrieve W o owner repo path).run h).2 = attempt_events c false es1 ++ rest ∧
      (∀ e ∈ es1, e.is_subprocess = false) ∧
      (c.op = .FullClone →
        rest = [] ∧ ((main_retrieve W o owner repo path).run h).1 = EXIT_FAILURE) := by
  rcases path_cases path with rfl | ⟨d, rfl⟩ | ⟨hne, hns⟩
  · obtain ⟨r1, es1, hop, hrun⟩ := main_retrieve_clone_shape W o owner repo h
    rw [hrun] at hsel ⊢
    simp only [calls_attempt_events, List.head?_cons, Option.some.injEq] at hsel
    subst hsel
    obtain ⟨es, he, hs⟩ := clone_repository_exists W o owner repo [] (clone_dest o repo)
      (effects h) hex
    rw [he] at hop
    obtain ⟨rfl, rfl⟩ := Prod.mk.inj hop
    exact ⟨es, [], by simp, hs, fun _ => ⟨rfl, rfl⟩⟩
  · obtain ⟨r1, es1, hop, ⟨-, hrun⟩ | ⟨-, -, h2, r2, es2, -, hrun⟩⟩ :=
      main_retrieve_dir_shape W o owner repo d h
    · rw [hrun] at hsel ⊢
      simp only [calls_attempt_events, List.head?_cons, Option.some.injEq] at hsel
      subst hsel
      obtain ⟨es, he, hs⟩ := download_directory_selective_exists W o owner repo d
        (dir_dest o d) (effects h) hex
      rw [he] at hop
      obtain ⟨rfl, rfl⟩ := Prod.mk.inj hop
      exact ⟨es, [], by simp, hs, fun hop => by cases hop⟩
    · rw [hrun] at hsel ⊢
      simp only [calls_append, calls_attempt_events, List.singleton_append, List.cons_append,
        List.head?_cons, Option.some.injEq] at hsel
      subst hsel
      obtain ⟨es, he, hs⟩ := download_directory_selective_exists W o owner repo d
        (dir_dest o d) (effects h) hex
      rw [he] at hop
      obtain ⟨-, rfl⟩ := Prod.mk.inj hop
      exact ⟨es, _, by rw [List.append_assoc], hs, fun hop => by cases hop⟩
  · obtain ⟨r1, es1, hop, ⟨hr1, hrun⟩ | ⟨-, msg, h2, r2, es2, -, -, hrun⟩⟩ :=
      main_retrieve_file_shape W o owner repo path h hne hns
    · rw [hrun] at hsel
      simp only [calls_attempt_events, List.head?_cons, Option.some.injEq] at hsel
      subst hsel
      obtain ⟨es, he, hs⟩ := download_file_exists W o owner repo path (file_dest o path)
        (effects h) hex
      rw [he] at hop
      obtain ⟨rfl, rfl⟩ := Prod.mk.inj hop
      cases hr1
    · rw [hrun] at hsel ⊢
      simp only [calls_append, calls_attempt_events, List.singleton_append, List.cons_append,
        List.head?_cons, Option.some.injEq] at hsel
      subst hsel
      obtain ⟨es, he, hs⟩ := download_file_exists W o owner repo path (file_dest o path)
        (effects h) hex
      rw [he] at hop
      obtain ⟨-, rfl⟩ := Prod.mk.inj hop
      exact ⟨es, _, by rw [List.append_assoc], hs, fun hop => by cases hop⟩

/-- C10, amended.  For every invocation in which the destination `c.output`
computed for the selected (first entered) retrieval operation `c` already
exists: before that operation the invocation starts no network subprocess
(only the version checks of `check_dependencies`), and the operation fails
having started no subprocess at all.  When the selected operation is
`clone_repository`, it is the only attempt, the exit status is failure and no
network subprocess runs in the whole invocation.  When the destination of
every operation that `main` enters exists, every attempt fails, the exit
status is failure and no network subprocess runs in the whole invocation. -/
theorem main_destination_exists (W : World) (o : Opts) (args : List Str) (h : List Event)
    (c : Call)
    (hsel : (calls ((main W o args).run h).2).head? = some c)
    (hex : ∀ h1, W.fs_exists h1 c.output = true) :
    (∃ (pre es1 : List Effect) (rest : List Event),
      ((main W o args).run h).2 = pre.map Event.effect ++ attempt_events c false es1 ++ rest ∧
      (∀ e ∈ pre, e.is_network = false) ∧ (∀ e ∈ es1, e.is_subprocess = false)) ∧
    (c.op = .FullClone →
      attempts ((main W o args).run h).2 = [(c, false)] ∧
      ((main W o args).run h).1 = EXIT_FAILURE ∧
      ∀ e ∈ effects ((main W o args).run h).2, e.is_network = false) ∧
    ((∀ c1 ∈ calls ((main W o args).run h).2, ∀ h1, W.fs_exists h1 c1.output = true) →
      ((main W o args).run h).1 = EXIT_FAILURE ∧
      (∀ a ∈ attempts ((main W o args).run h).2, a.2 = false) ∧
      ∀ e ∈ effects ((main W o args).run h).2, e.is_network = false) := by
  obtain ⟨pre, hpre, hearly | ⟨o1, owner, repo, path, hrun⟩⟩ := main_shape W o args h
  · rw [hearly] at hsel
    simp [calls_effects] at hsel
  · have hsel1 : (calls ((main_retrieve W o1 owner repo path).run
        (h ++ pre.map Event.effect)).2).head? = some c := by
      rw [hrun] at hsel
      simpa [calls_append, calls_effects] using hsel
    obtain ⟨es1, rest, hr2, hes1, hfull⟩ :=
      main_retrieve_selected_exists W o1 owner repo path (h ++ pre.map Event.effect) c hsel1 hex
    rw [hrun]
    refine ⟨⟨pre, es1, rest, ?_, hpre, hes1⟩, ?_, ?_⟩
    · simp only [hr2, List.append_assoc]
    · intro hop
      obtain ⟨rfl, hexit⟩ := hfull hop
      refine ⟨?_, hexit, ?_⟩
      · simp only [hr2, attempts_append, attempts_effects, attempts_attempt_events,
          List.append_nil, List.nil_append]
      · intro e he
        simp only [hr2, effects_append, effects_map, effects_attempt_events, List.append_nil,
          List.mem_append] at he
        rcases he with he | he
        · exact hpre e he
        · exact not_network_of_not_subprocess e (hes1 e he)
    · intro hall
      have hall1 : ∀ c1 ∈ calls ((main_retrieve W o1 owner repo path).run
          (h ++ pre.map Event.effect)).2, ∀ h1, W.fs_exists h1 c1.output = true := by
        intro c1 hc1
        apply hall c1
        simpa [calls_append, calls_effects] using hc1
      obtain ⟨hexit, hsub, hatt, -⟩ :=
        main_retrieve_destination_exists W o1 owner repo path (h ++ pre.map Event.effect) hall1
      refine ⟨hexit, ?_, ?_⟩
      · intro a ha
        simp only [attempts_append, attempts_effects, List.nil_append] at ha
        exact hatt a ha
      · intro e he
        simp only [effects_append, effects_map, List.mem_append] at he
        rcases he with he | he
        · exact hpre e he
        · exact not_network_of_not_subprocess e (hsub e he)

set_option maxRecDepth 100000 in
/-- Witness of C10 (amended): `sip foo/bar README` where `README` exists.  It
is the destination of `download_file` and of the fallback
`download_directory_selective`: both fail, the exit status is failure and the
only subprocesses of the run are the two version checks. -/
theorem main_destination_exists_witness :
    ((main (example_world ["README".toList] (fun _ => 0) (fun _ => none)) default_opts
        ["foo/bar".toList, "README".toList]).run []).1 = EXIT_FAILURE ∧
    (∀ a ∈ attempts ((main (example_world ["README".toList] (fun _ => 0) (fun _ => none)) default_opts
        ["foo/bar".toList, "README".toList]).run []).2, a.2 = false) ∧
    ∀ e ∈ effects ((main (example_world ["README".toList] (fun _ => 0) (fun _ => none)) default_opts
        ["foo/bar".toList, "README".toList]).run []).2, e.is_network = false :=
  (main_destination_exists (example_world ["README".toList] (fun _ => 0) (fun _ => none)) default_opts
    ["foo/bar".toList, "README".toList] []
    ⟨.FileFetch, "foo".toList, "bar".toList, "README".toList, "README".toList⟩
    (by decide) (fun _ => rfl)).2.2 (by
      intro c1 hc1 h1
      have hcalls : calls ((main (example_world ["README".toList] (fun _ => 0) (fun _ => none))
          default_opts ["foo/bar".toList, "README".toList]).run []).2
          = [⟨.FileFetch, "foo".toList, "bar".toList, "README".toList, "README".toList⟩,
             ⟨.DirectoryCheckout, "foo".toList, "bar".toList, "README".toList,
               "README".toList⟩] := by
        decide
      rw [hcalls] at hc1
      simp only [List.mem_cons, List.mem_singleton, List.not_mem_nil, or_false] at hc1
      rcases hc1 with rfl | rfl <;> rfl)

/-! ## Quoting of arguments -/

theorem quote_fold (s acc : Str) :
    s.foldl
        (fun quoted c =>
          if c = Char.ofNat 39 then
            quoted ++ [Char.ofNat 39, Char.ofNat 34, Char.ofNat 39, Char.ofNat 34, Char.ofNat 39]
          else quoted ++ [c])
        acc
      = acc ++ s.flatMap quoted_char := by
  induction s generalizing acc with
  | nil => simp
  | cons c cs ih =>
      rw [List.foldl_cons, ih, List.flatMap_cons]
      by_cases hc : c = Char.ofNat 39
      · simp [quoted_char, hc]
      · simp [quoted_char, hc]

theorem quote_arg_eq (s : Str) :
    quote_arg s = Char.ofNat 39 :: (s.flatMap quoted_char ++ [Char.ofNat 39]) := by
  unfold quote_arg
  rw [quote_fold]
  simp

theorem unquote_from_single (s : Str) :
    unquote_from .single (s.flatMap quoted_char ++ [Char.ofNat 39]) = some s := by
  induction s with
  | nil => simp [unquote_from]
  | cons c cs ih =>
      rw [List.flatMap_cons]
      by_cases hc : c = Char.ofNat 39
      · subst hc
        have h34 : Char.ofNat 34 ≠ Char.ofNat 39 := by decide
        have hs : ¬ (Char.ofNat 39 = '$' ∨ Char.ofNat 39 = Char.ofNat 96
            ∨ Char.ofNat 39 = Char.ofNat 92) := by decide
        simp only [quoted_char, if_true, List.cons_append, List.nil_append, unquote_from,
          if_neg h34, if_neg hs, ih, Option.map_some']
        simp [ih]
      · simp only [quoted_char, if_neg hc, List.cons_append, List.nil_append, unquote_from, ih,
          Option.map_some']

/-- C14.  On the POSIX build, `quote_arg(s)` is a single quote, then for each
character of `s` either the five characters that stand for a single quote or
the character itself, then a single quote; it begins and ends with a single
quote; and quote removal of the shell turns it back into exactly `s`, as one
word in which no character is interpreted. -/
theorem unquote_quote_arg (s : Str) :
    quote_arg s = [Char.ofNat 39] ++ s.flatMap quoted_char ++ [Char.ofNat 39] ∧
    (quote_arg s).head? = some (Char.ofNat 39) ∧
    (quote_arg s).getLast? = some (Char.ofNat 39) ∧
    quoted_char (Char.ofNat 39)
      = [Char.ofNat 39, Char.ofNat 34, Char.ofNat 39, Char.ofNat 34, Char.ofNat 39] ∧
    (∀ c, c ≠ Char.ofNat 39 → quoted_char c = [c]) ∧
    unquote (quote_arg s) = some s := by
  refine ⟨by rw [quote_arg_eq]; simp, by rw [quote_arg_eq]; simp, ?_, by simp [quoted_char],
    fun c hc => by simp [quoted_char, hc], ?_⟩
  · rw [quote_arg_eq, ← List.cons_append, List.getLast?_append]
    simp
  · rw [quote_arg_eq]
    simp only [unquote, unquote_from, if_true]
    exact unquote_from_single s

/-- Witness of C14: a character other than a single quote, here `a`, is
copied unchanged. -/
theorem unquote_quote_arg_witness : quoted_char 'a' = ['a'] :=
  (unquote_quote_arg []).2.2.2.2.1 'a' (by decide)

/-! ## Discovery of the default branch -/

theorem find_if_take_while {p : Char → Bool} :
    ∀ (l : Str),
      (∀ k, find_if p l = some k → l.take k = l.takeWhile (fun c => !p c)) ∧
      (find_if p l = none → l.takeWhile (fun c => !p c) = l) := by
  intro l
  induction l with
  | nil => simp [find_if]
  | cons x xs ih =>
      by_cases hx : p x = true
      · simp [find_if, hx, List.takeWhile_cons]
      · have hx1 : p x = false := by simpa using hx
        constructor
        · intro k hk
          simp only [find_if, hx1, Bool.false_eq_true, if_false, Option.map_eq_some'] at hk
          obtain ⟨k1, hk1, rfl⟩ := hk
          simp [List.takeWhile_cons, hx1, ih.1 k1 hk1]
        · intro hn
          simp only [find_if, hx1, Bool.false_eq_true, if_false, Option.map_eq_none'] at hn
          simp [List.takeWhile_cons, hx1, ih.2 hn]

theorem name_after_eq (first : Str) (pos : Nat) :
    (match find_first_of first [' ', '\t', '\n'] (pos + 11) with
      | none => substr_from first (pos + 11)
      | some e => substr first (pos + 11) (e - (pos + 11)))
      = name_after first pos := by
  unfold find_first_of name_after
  cases hf : find_if (fun x => [' ', '\t', '\n'].contains x) (List.drop (pos + 11) first) with
  | none =>
      simp only [Option.map_none', substr_from]
      exact ((find_if_take_while _).2 hf).symm
  | some k =>
      simp only [Option.map_some', substr, Nat.add_sub_cancel]
      exact (find_if_take_while _).1 k hf

theorem branch_of_first_line_eq (first : Str) :
    branch_of_first_line first =
      if starts_with first "ref:".toList = true then
        match find_str first "refs/heads/".toList with
        | some pos =>
            if rtrim (name_after first pos) = [] then "main".toList
            else rtrim (name_after first pos)
        | none => "main".toList
      else "main".toList := by
  unfold branch_of_first_line
  split
  · cases hf : find_str first "refs/heads/".toList with
    | none => rfl
    | some pos =>
        simp only []
        rw [name_after_eq]
  · rfl

theorem find_str_eq_none_iff (s pat : Str) : find_str s pat = none ↔ ¬ pat <:+: s := by
  induction s with
  | nil =>
      by_cases hp : pat = []
      · simp [find_str, hp]
      · simp [find_str, hp, List.infix_nil]
  | cons c cs ih =>
      rw [List.infix_cons_iff]
      by_cases hp : pat <+: c :: cs
      · have : pat.isPrefixOf (c :: cs) = true := List.isPrefixOf_iff_prefix.2 hp
        simp [find_str, this, hp]
      · have : pat.isPrefixOf (c :: cs) = false :=
          Bool.eq_false_iff.2 (fun h => hp (List.isPrefixOf_iff_prefix.1 h))
        simp [find_str, this, hp, ih]

theorem rtrim_nil : rtrim [] = [] := rfl

theorem main_ne_nil : "main".toList ≠ [] := by decide

theorem branch_of_first_line_ne_nil (first : Str) : branch_of_first_line first ≠ [] := by
  rw [branch_of_first_line_eq]
  split
  · split
    · split
      · exact main_ne_nil
      · assumption
    · exact main_ne_nil
  · exact main_ne_nil

theorem ls_remote_cmd_redirected (W : World) (o : Opts) (owner repo : Str)
    (hv : o.verbose = false) : dev_null <:+ ls_remote_cmd W o owner repo := by
  unfold ls_remote_cmd
  simp only [hv, Bool.not_false, if_true]
  exact List.suffix_append _ _

theorem discover_default_branch_shape (W : World) (o : Opts) (owner repo : Str) (h : History) :
    (discover_default_branch W o owner repo).run h
      = (match W.popen h (ls_remote_cmd W o owner repo) with
          | none => "main".toList
          | some out => branch_of_first_line (((fgets 512 out).map c_string).getD []),
         [Effect.popen (ls_remote_cmd W o owner repo)]) := by
  unfold discover_default_branch
  simp only [act_run_bind, query_run]
  rw [Prod.mk.injEq]
  have hc : (if (!o.verbose) = true then
        "git".toList
          ++ (match W.github_token with
              | some token =>
                  " -c http.extraHeader=".toList
                    ++ quote_arg ("Authorization: Bearer ".toList ++ token)
              | none => [])
          ++ " ls-remote --symref ".toList
          ++ quote_arg ("https://github.com/".toList ++ owner ++ "/".toList ++ repo)
          ++ " HEAD".toList ++ dev_null
      else
        "git".toList
          ++ (match W.github_token with
              | some token =>
                  " -c http.extraHeader=".toList
                    ++ quote_arg ("Authorization: Bearer ".toList ++ token)
              | none => [])
          ++ " ls-remote --symref ".toList
          ++ quote_arg ("https://github.com/".toList ++ owner ++ "/".toList ++ repo)
          ++ " HEAD".toList) = ls_remote_cmd W o owner repo := rfl
  rw [hc]
  constructor
  · cases hp : W.popen h (ls_remote_cmd W o owner repo) with
    | none => simp [act_run_pure]
    | some out => cases hg : fgets 512 out <;> simp [hg, act_run_pure]
  · cases hp : W.popen h (ls_remote_cmd W o owner repo) with
    | none => simp [act_run_pure]
    | some out => simp [act_run_pure]

theorem rtrim_of_last (b : Str) (c : Char) (hl : b.getLast? = some c)
    (hc : c ∉ [' ', '\n', '\r', '\t']) : rtrim b = b := by
  obtain ⟨d, rfl⟩ : ∃ d, b = d ++ [c] := ⟨b.dropLast, (List.dropLast_append_getLast? c hl).symm⟩
  have hp : (!([' ', '\n', '\r', '\t'].contains c)) = true := by
    simpa using hc
  unfold rtrim find_last_not_of
  simp only [List.reverse_append, List.reverse_singleton, List.singleton_append, find_if, hp,
    if_true, Option.map_some']
  simp [substr]

theorem read_line_line (n : Nat) (pre rest : Str) (hn : '\n' ∉ pre) (hlen : pre.length < n) :
    read_line n (pre ++ '\n' :: rest) = pre ++ ['\n'] := by
  induction pre generalizing n with
  | nil =>
      cases n with
      | zero => simp at hlen
      | succ m => simp [read_line]
  | cons x xs ih =>
      cases n with
      | zero => simp at hlen
      | succ m =>
          have hx : x ≠ '\n' := fun e => hn (e ▸ List.mem_cons_self _ _)
          have hxs : '\n' ∉ xs := fun hm => hn (List.mem_cons_of_mem _ hm)
          have hl : xs.length < m := by simpa using hlen
          simp [read_line, hx, ih m hxs hl]

/-- The branch named by a line `ref: refs/heads/<b>\tHEAD\n`, for a name `b`
that is not empty and has no space, tab, newline or carriage return. -/
theorem branch_of_symref_line (b : Str) (hb : b ≠ [])
    (hws : ∀ c ∈ b, c ∉ [' ', '\n', '\r', '\t']) :
    branch_of_first_line ("ref: refs/heads/".toList ++ b ++ "\tHEAD\n".toList) = b := by
  have hname : name_after ("ref: refs/heads/".toList ++ b ++ "\tHEAD\n".toList) 5 = b := by
    have hd : List.drop (5 + 11) ("ref: refs/heads/".toList ++ b ++ "\tHEAD\n".toList)
        = b ++ "\tHEAD\n".toList := by simp
    unfold name_after
    rw [hd, List.takeWhile_append_of_pos]
    · simp [List.takeWhile_cons]
    · intro c hc
      have := hws c hc
      simp only [List.mem_cons, List.mem_singleton, List.not_mem_nil, or_false, not_or] at this
      simp [this.1, this.2.1, this.2.2.2]
  have hfind : find_str ("ref: refs/heads/".toList ++ b ++ "\tHEAD\n".toList)
      "refs/heads/".toList = some 5 := by
    simp [find_str]
  obtain ⟨c, hc⟩ : ∃ c, b.getLast? = some c := by
    cases hl : b.getLast? with
    | none => exact absurd (List.getLast?_eq_none_iff.1 hl) hb
    | some c => exact ⟨c, rfl⟩
  have hmem : c ∈ b := by
    rw [← List.dropLast_append_getLast? c hc]
    simp
  have hr : rtrim b = b := rtrim_of_last b c hc (hws c hmem)
  rw [branch_of_first_line_eq, hfind]
  simp only [hname, hr, if_neg hb]
  simp [starts_with]

/-- In verbose mode the command line is not redirected: if its pipe delivers
a first line `ref: refs/heads/<b>\tHEAD\n` of at most 511 characters, with a
name `b` that has no NUL, the branch returned is `b`. -/
theorem discover_default_branch_verbose (W : World) (o : Opts) (owner repo : Str) (h : History)
    (b rest : Str) (hb : b ≠ []) (hws : ∀ c ∈ b, c ∉ [' ', '\n', '\r', '\t'])
    (hnul : Char.ofNat 0 ∉ b)
    (hlen : ("ref: refs/heads/".toList ++ b ++ "\tHEAD\n".toList).length ≤ 511)
    (hpipe : W.popen h (ls_remote_cmd W o owner repo)
      = some ("ref: refs/heads/".toList ++ b ++ "\tHEAD\n".toList ++ rest)) :
    ((discover_default_branch W o owner repo).run h).1 = b := by
  have hn : '\n' ∉ "ref: refs/heads/".toList ++ b ++ "\tHEAD".toList := by
    intro hm
    simp only [List.mem_append] at hm
    rcases hm with (hm | hm) | hm
    · revert hm; decide
    · exact hws _ hm (by simp)
    · revert hm; decide
  have hline : fgets 512 ("ref: refs/heads/".toList ++ b ++ "\tHEAD\n".toList ++ rest)
      = some ("ref: refs/heads/".toList ++ b ++ "\tHEAD\n".toList) := by
    have e1 : "ref: refs/heads/".toList ++ b ++ "\tHEAD\n".toList ++ rest
        = ("ref: refs/heads/".toList ++ b ++ "\tHEAD".toList) ++ '\n' :: rest := by simp
    have e2 : "ref: refs/heads/".toList ++ b ++ "\tHEAD\n".toList
        = ("ref: refs/heads/".toList ++ b ++ "\tHEAD".toList) ++ ['\n'] := by simp
    have hl : ("ref: refs/heads/".toList ++ b ++ "\tHEAD".toList).length < 511 := by
      rw [e2] at hlen
      simp only [List.length_append, List.length_singleton] at hlen ⊢
      omega
    unfold fgets
    rw [if_neg (by simp), e1, e2, read_line_line 511 _ rest hn hl]
  have hcut : c_string ("ref: refs/heads/".toList ++ b ++ "\tHEAD\n".toList)
      = "ref: refs/heads/".toList ++ b ++ "\tHEAD\n".toList := by
    unfold c_string
    rw [List.takeWhile_eq_self_iff]
    intro c hc
    simp only [List.mem_append] at hc
    have hne : c ≠ Char.ofNat 0 := by
      rcases hc with (hc | hc) | hc
      · intro e; subst e; revert hc; decide
      · intro e; exact hnul (e ▸ hc)
      · intro e; subst e; revert hc; decide
    simpa using hne
  rw [discover_default_branch_shape, hpipe]
  simp only [hline, Option.map_some', Option.getD_some, hcut]
  exact branch_of_symref_line b hb hws

/-- In the default mode the command line ends with `>/dev/null 2>&1`: when the
pipe of a command line so redirected delivers nothing, the branch returned is
`main`, whatever the remote answers. -/
theorem discover_default_branch_redirected (W : World) (o : Opts) (owner repo : Str)
    (h : History) (hv : o.verbose = false)
    (hsh : ∀ c, W.popen h (c ++ dev_null) = none ∨ W.popen h (c ++ dev_null) = some []) :
    ((discover_default_branch W o owner repo).run h).1 = "main".toList := by
  obtain ⟨c, hc⟩ := ls_remote_cmd_redirected W o owner repo hv
  rw [discover_default_branch_shape, ← hc]
  rcases hsh c with hp | hp
  · rw [hp]
  · rw [hp]
    rfl

set_option maxRecDepth 100000 in
/-- C11, the code in the default mode: for a remote whose `HEAD` points to
`refs/heads/master`, the command line of the default (non-verbose) mode ends
with `>/dev/null 2>&1`, its pipe delivers nothing and the branch returned is
`main`; only with `-v` is the line `ref: refs/heads/master\tHEAD\n` read and
`master` returned. -/
theorem discover_default_branch_default_mode :
    (discover_default_branch (example_world [] (fun _ => 0) master_remote_pipe) default_opts
        "torvalds".toList "linux".toList).run []
      = ("main".toList,
         [Effect.popen ("git ls-remote --symref \x27https://github.com/torvalds/linux\x27 HEAD"
            ++ " >/dev/null 2>&1").toList]) ∧
    (discover_default_branch (example_world [] (fun _ => 0) master_remote_pipe) verbose_opts
        "torvalds".toList "linux".toList).run []
      = ("master".toList,
         [Effect.popen
            "git ls-remote --symref \x27https://github.com/torvalds/linux\x27 HEAD".toList]) := by
  decide

/-- C12.  `discover_default_branch` never returns an empty name, and it
returns `main` whenever the discovery fails: when no first line is read (the
pipe cannot be opened or delivers nothing), and when the first line read does
not begin with `ref:`, or contains no `refs/heads/`, or has an empty name
after its first `refs/heads/`. -/
theorem discover_default_branch_fallback (W : World) (o : Opts) (owner repo : Str)
    (h : History) :
    ((discover_default_branch W o owner repo).run h).1 ≠ [] ∧
    ((discover_default_branch W o owner repo).run h).2
      = [Effect.popen (ls_remote_cmd W o owner repo)] ∧
    (first_line_read W h (ls_remote_cmd W o owner repo) = none →
      ((discover_default_branch W o owner repo).run h).1 = "main".toList) ∧
    (∀ first, first_line_read W h (ls_remote_cmd W o owner repo) = some first →
      (¬ "ref:".toList <+: first ∨ ¬ "refs/heads/".toList <:+: first ∨
        ∃ pos, find_str first "refs/heads/".toList = some pos ∧ name_after first pos = []) →
      ((discover_default_branch W o owner repo).run h).1 = "main".toList) := by
  rw [discover_default_branch_shape]
  refine ⟨?_, rfl, ?_, ?_⟩
  · cases W.popen h (ls_remote_cmd W o owner repo) with
    | none => exact main_ne_nil
    | some out => exact branch_of_first_line_ne_nil _
  · intro hnone
    unfold first_line_read at hnone
    cases hp : W.popen h (ls_remote_cmd W o owner repo) with
    | none => rfl
    | some out =>
        rw [hp] at hnone
        have hg : fgets 512 out = none := by simpa using hnone
        simp only [hg]
        rfl
  · intro first hfirst hbad
    unfold first_line_read at hfirst
    cases hp : W.popen h (ls_remote_cmd W o owner repo) with
    | none => rfl
    | some out =>
        rw [hp] at hfirst
        have hg : (fgets 512 out).map c_string = some first := by simpa using hfirst
        simp only [hg, Option.getD_some]
        rw [branch_of_first_line_eq]
        rcases hbad with hb | hb | ⟨pos, hpos, hname⟩
        · have : starts_with first "ref:".toList = false :=
            Bool.eq_false_iff.2 (fun hs => hb (List.isPrefixOf_iff_prefix.1 hs))
          rw [this]
          rfl
        · rw [(find_str_eq_none_iff first _).2 hb]
          split <;> rfl
        · rw [hpos]
          simp only [hname, rtrim_nil, if_true]
          split <;> rfl

/-- Witness of C12: the first line read is `fatal: repository not found`. -/
theorem discover_default_branch_fallback_witness :
    ((discover_default_branch
        (example_world [] (fun _ => 0) (fun _ => some "fatal: repository not found\n".toList))
        default_opts "foo".toList "bar".toList).run []).1 = "main".toList :=
  (discover_default_branch_fallback
    (example_world [] (fun _ => 0) (fun _ => some "fatal: repository not found\n".toList))
    default_opts "foo".toList "bar".toList []).2.2.2
      "fatal: repository not found\n".toList (by decide) (Or.inl (by decide))

/-! ## The quiet flag -/

/-- With `opt_quiet` set, `main` makes no second attempt after the directory
checkout of a path `d/`, whatever its result. -/
theorem main_retrieve_directory_quiet (W : World) (o : Opts) (owner repo d : Str)
    (h : List Event) (hq : o.quiet = true) :
    ∃ r1,
      attempts ((main_retrieve W o owner repo (d ++ ['/'])).run h).2
        = [(⟨.DirectoryCheckout, owner, repo, d, dir_dest o d⟩, r1)] ∧
      ((main_retrieve W o owner repo (d ++ ['/'])).run h).1 = status_of r1 := by
  obtain ⟨r1, es1, -, ⟨-, hrun⟩ | ⟨-, hq', -⟩⟩ := main_retrieve_dir_shape W o owner repo d h
  · exact ⟨r1, by rw [hrun]; simp [attempts_attempt_events], by rw [hrun]⟩
  · rw [hq] at hq'
    cases hq'

set_option maxRecDepth 100000 in
/-- C13, the code with and without `-q`: the path is `docs/`, the clone of
the directory checkout fails and every other command succeeds.  With `-q`
the only attempt is the directory checkout and the exit status is failure;
without it `main` goes on to `clone_repository`, which succeeds, and the exit
status is success. -/
theorem main_retrieve_quiet_changes_attempts :
    attempts ((main_retrieve (example_world [] sparse_clone_fails (fun _ => none)) quiet_opts
        "foo".toList "bar".toList "docs/".toList).run []).2
      = [(⟨.DirectoryCheckout, "foo".toList, "bar".toList, "docs".toList, "docs".toList⟩,
          false)] ∧
    ((main_retrieve (example_world [] sparse_clone_fails (fun _ => none)) quiet_opts
        "foo".toList "bar".toList "docs/".toList).run []).1 = EXIT_FAILURE ∧
    attempts ((main_retrieve (example_world [] sparse_clone_fails (fun _ => none)) default_opts
        "foo".toList "bar".toList "docs/".toList).run []).2
      = [(⟨.DirectoryCheckout, "foo".toList, "bar".toList, "docs".toList, "docs".toList⟩,
          false),
         (⟨.FullClone, "foo".toList, "bar".toList, [], "bar".toList⟩, true)] ∧
    ((main_retrieve (example_world [] sparse_clone_fails (fun _ => none)) default_opts
        "foo".toList "bar".toList "docs/".toList).run []).1 = EXIT_SUCCESS := by
  decide

end Sip
